import Mathlib

/-!
# chess-ai: board decoder, verified against `src/main.cpp`

A shallow embedding of the board container, of `Board::loadFEN`, of the coordinate
functions `fileRankToRC` and `rcToSquare` and of `parseSimpleMove`:

* `char` is `Char`, `std::string` is `String` (scanned as its list of characters);
* `int` values are `Int` (cells) or `Nat` (the counters `row` and `col`, which only grow
  and never exceed 16, so no machine overflow is possible);
* `int board[8][8]` is a function `Fin 8 → Fin 8 → Int`; a write through run-time
  indices is bounds-checked (`Grid.write`) and has its own outcome `indexOutOfRange`;
* the `cout` diagnostic printed before each `return false` is recorded as a `FenError`;
* a reference argument is passed in with the value it holds before the call and comes
  back in the result (`RCResult`, `ParseResult`);
* the copies of these functions in `src/main_v1.cpp` and `src/main_v2.cpp` are embedded
  on their own in the namespaces `V1` and `V2`.
-/

set_option autoImplicit false
set_option maxRecDepth 100000

namespace ChessAI

/-! ## Piece codes (`enum Piece`) -/

/-- Values of `enum Piece`: positive is white, negative is black, zero is empty. -/
abbrev Piece := Int

abbrev EMPTY : Piece := 0
abbrev WP : Piece := 1
abbrev WN : Piece := 2
abbrev WB : Piece := 3
abbrev WR : Piece := 4
abbrev WQ : Piece := 5
abbrev WK : Piece := 6
abbrev BP : Piece := -1
abbrev BN : Piece := -2
abbrev BB : Piece := -3
abbrev BR : Piece := -4
abbrev BQ : Piece := -5
abbrev BK : Piece := -6

/-! ## The grid (`int board[8][8]`) -/

/-- The array `int board[8][8]`: row 0 is rank 8, column 0 is file a. -/
abbrev Grid := Fin 8 → Fin 8 → Int

/-- Assignment `g[r][c] = v` with indices known to be in range. -/
def Grid.set (g : Grid) (r c : Fin 8) (v : Int) : Grid :=
  fun i j => if i = r ∧ j = c then v else g i j

/-- Assignment `g[r][c] = v` through run-time indices: `none` when an index is out of range. -/
def Grid.write (g : Grid) (r c : Nat) (v : Int) : Option Grid :=
  if h : r < 8 ∧ c < 8 then some (g.set ⟨r, h.1⟩ ⟨c, h.2⟩ v) else none

/-- The rows of a grid as lists, for inspection. -/
def Grid.toLists (g : Grid) : List (List Int) :=
  (List.finRange 8).map fun r => (List.finRange 8).map fun c => g r c

/-- The loop nest `for r in 0..7, for c in 0..7: g[r][c] = f r c`. -/
def Grid.assignAll (g : Grid) (f : Fin 8 → Fin 8 → Int) : Grid :=
  (List.finRange 8).foldl
    (fun g r => (List.finRange 8).foldl (fun g c => g.set r c (f r c)) g) g

/-- The method `Board::clear`: every cell becomes `EMPTY`. -/
def Board.clear (board : Grid) : Grid :=
  board.assignAll fun _ _ => EMPTY

def black_back_rank : Fin 8 → Int := ![BR, BN, BB, BQ, BK, BB, BN, BR]
def black_pawns : Fin 8 → Int := ![BP, BP, BP, BP, BP, BP, BP, BP]
def white_back_rank : Fin 8 → Int := ![WR, WN, WB, WQ, WK, WB, WN, WR]
def white_pawns : Fin 8 → Int := ![WP, WP, WP, WP, WP, WP, WP, WP]

/-- The method `Board::initStartPosition`. -/
def Board.initStartPosition (board : Grid) : Grid :=
  let b0 := Board.clear board
  let b1 := (List.finRange 8).foldl
    (fun g c => (g.set 0 c (black_back_rank c)).set 1 c (black_pawns c)) b0
  (List.finRange 8).foldl
    (fun g c => (g.set 6 c (white_pawns c)).set 7 c (white_back_rank c)) b1

/-- The constructor `Board::Board`: `clear()` then `initStartPosition()`. The cells of a
C++ object start indeterminate, so the constructor is given arbitrary initial contents. -/
def Board.new (uninit : Grid) : Grid :=
  Board.initStartPosition (Board.clear uninit)

/-! ## Piece letters -/

/-- The method `Board::charToPiece`. -/
def Board.charToPiece (ch : Char) : Piece :=
  if ch = 'P' then WP
  else if ch = 'N' then WN
  else if ch = 'B' then WB
  else if ch = 'R' then WR
  else if ch = 'Q' then WQ
  else if ch = 'K' then WK
  else if ch = 'p' then BP
  else if ch = 'n' then BN
  else if ch = 'b' then BB
  else if ch = 'r' then BR
  else if ch = 'q' then BQ
  else if ch = 'k' then BK
  else EMPTY

/-! ## `Board::loadFEN` -/

/-- The diagnostic of each `return false` of `loadFEN`, under the name the specification
gives to it. -/
inductive FenError where
  /-- Printed at a '/': `row R has C squares (must be 8)`. -/
  | rowLengthMismatch
  /-- Printed at a '/': `too many rows`. -/
  | tooManyRows
  /-- Printed at a digit (`too many squares in row R (col=C)`) or at a piece letter
  (`too many squares in row R when placing piece`). -/
  | rowOverflow
  /-- Printed at any other character: `unknown piece char`. -/
  | unknownPieceChar
  /-- Printed after the loop: `total rows/cols not 8x8`. -/
  | incompleteBoard
  /-- Not a diagnostic of the source: the write `temp[row][col]` with an index outside
  `0..7`, which the C++ code does not check. -/
  | indexOutOfRange
  deriving DecidableEq, Repr

/-- The call `s.find(c)`: index of the first occurrence, `none` for `string::npos`. -/
def strFind (c : Char) : List Char → Option Nat
  | [] => none
  | x :: xs => if x = c then some 0 else (strFind c xs).map (· + 1)

/-- The first step of `loadFEN`: the text before the first space, or everything. -/
def boardPart (fen : List Char) : List Char :=
  match strFind ' ' fen with
  | none => fen
  | some spacePos => fen.take spacePos

/-- The locals of the scan loop of `loadFEN`. -/
structure ScanState where
  row : Nat
  col : Nat
  temp : Grid

/-- The locals before the loop: `row = col = 0` and `temp` filled with `EMPTY` by the
loop nest (the array is overwritten in full, so its indeterminate initial content is
taken to be zeros). -/
def ScanState.init : ScanState :=
  { row := 0, col := 0, temp := Grid.assignAll (fun _ _ => 0) fun _ _ => EMPTY }

/-- One iteration of `for (char ch : boardPart)`. -/
def scanStep (st : ScanState) (ch : Char) : Except FenError ScanState :=
  if ch = '/' then
    if st.col ≠ 8 then .error .rowLengthMismatch
    else
      let row := st.row + 1
      let col := 0
      if row ≥ 8 then .error .tooManyRows
      else .ok { row := row, col := col, temp := st.temp }
  else if '1' ≤ ch ∧ ch ≤ '8' then
    let emptyCount := ch.toNat - '0'.toNat
    let col := st.col + emptyCount
    if col > 8 then .error .rowOverflow
    else .ok { row := st.row, col := col, temp := st.temp }
  else
    let p := Board.charToPiece ch
    if p = EMPTY then .error .unknownPieceChar
    else if st.col ≥ 8 then .error .rowOverflow
    else
      match st.temp.write st.row st.col p with
      | none => .error .indexOutOfRange
      | some temp => .ok { row := st.row, col := st.col + 1, temp := temp }

/-- The loop `for (char ch : boardPart)`, leaving at the first `return false`. -/
def scan (st : ScanState) : List Char → Except FenError ScanState
  | [] => .ok st
  | ch :: rest =>
    match scanStep st ch with
    | .error e => .error e
    | .ok st1 => scan st1 rest

/-- What a call of `loadFEN` leaves behind. -/
structure LoadResult where
  /-- The returned `bool`. -/
  ret : Bool
  /-- The diagnostic printed, if any. -/
  diag : Option FenError
  /-- The member `board` after the call. -/
  board : Grid

/-- The method `Board::loadFEN`, called on a board holding `board`. -/
def Board.loadFEN (board : Grid) (fen : String) : LoadResult :=
  match scan ScanState.init (boardPart fen.toList) with
  | .error e => { ret := false, diag := some e, board := board }
  | .ok st =>
    if st.row ≠ 7 ∨ st.col ≠ 8 then
      { ret := false, diag := some .incompleteBoard, board := board }
    else
      { ret := true, diag := none, board := board.assignAll st.temp }

/-- Summary of a call for inspection: return value, diagnostic, rows of the board. -/
def LoadResult.view (r : LoadResult) : Bool × Option FenError × List (List Int) :=
  (r.ret, r.diag, r.board.toLists)

/-- The counters `(row, col)` with which the loop leaves a text, or its diagnostic. -/
def scanCounters (text : List Char) : Except FenError (Nat × Nat) :=
  match scan ScanState.init text with
  | .error e => .error e
  | .ok st => .ok (st.row, st.col)

/-- The staging grid `temp` with which the loop leaves a text (as initialised when the
loop fails). -/
def scanTemp (text : List Char) : Grid :=
  match scan ScanState.init text with
  | .error _ => ScanState.init.temp
  | .ok st => st.temp

/-- The board field of the standard start position. -/
def startFEN : String := "rnbqkbnr/pppppppp/8/8/8/8/PPPPPPPP/RNBQKBNR"

/-- The rows of the standard start position, black back rank first. -/
def startRows : List (List Int) :=
  [[-4, -2, -3, -5, -6, -3, -2, -4], [-1, -1, -1, -1, -1, -1, -1, -1],
   [0, 0, 0, 0, 0, 0, 0, 0], [0, 0, 0, 0, 0, 0, 0, 0],
   [0, 0, 0, 0, 0, 0, 0, 0], [0, 0, 0, 0, 0, 0, 0, 0],
   [1, 1, 1, 1, 1, 1, 1, 1], [4, 2, 3, 5, 6, 3, 2, 4]]

/-- The board with a white king on every cell, a prior content for examples. -/
def kingsGrid : Grid := fun _ _ => WK

/-! ## The board field as the specification describes it -/

/-- The segments of a text split at every '/' (at least one segment, possibly empty). -/
def segments : List Char → List (List Char)
  | [] => [[]]
  | ch :: rest =>
    if ch = '/' then [] :: segments rest
    else
      match segments rest with
      | [] => [[ch]]
      | seg :: segs => (ch :: seg) :: segs

/-- The digits that stand for a run of empty squares. -/
def runDigits : List Char := ['1', '2', '3', '4', '5', '6', '7', '8']

/-- The twelve piece letters. -/
def pieceLetters : List Char := ['P', 'N', 'B', 'R', 'Q', 'K', 'p', 'n', 'b', 'r', 'q', 'k']

/-- Columns taken by one character of a row: its value for a digit, one for a letter. -/
def colValue (ch : Char) : Nat :=
  if ch ∈ runDigits then ch.toNat - '0'.toNat else 1

/-- Column total of a segment. -/
def colTotal (seg : List Char) : Nat :=
  (seg.map colValue).sum

/-- A segment is a row: only digits `1..8` and piece letters, and a column total of 8. -/
def SegmentOk (seg : List Char) : Prop :=
  (∀ ch ∈ seg, ch ∈ runDigits ∨ ch ∈ pieceLetters) ∧ colTotal seg = 8

/-- A board field is well formed: exactly 8 segments, each of them a row. -/
def FieldOk (field : List Char) : Prop :=
  (segments field).length = 8 ∧ ∀ seg ∈ segments field, SegmentOk seg

/-- The board field of an input: the text before the first space, or all of it. -/
def boardField (fen : String) : List Char :=
  fen.toList.takeWhile fun c => c != ' '

/-- The grid with a black pawn at (3, 3), a white pawn at (4, 4) and nothing else. -/
def twoPawnsGrid : Grid :=
  fun i j => if i = 3 ∧ j = 3 then BP else if i = 4 ∧ j = 4 then WP else EMPTY

/-- The rest of a well-formed board field, read from counters `(row, col)`: the first
segment completes the current row, the others are rows, and the last one is row 7. -/
def RowsOk (row col : Nat) (text : List Char) : Prop :=
  ∃ seg segs, segments text = seg :: segs ∧ row + segs.length = 7 ∧
    (∀ ch ∈ seg, ch ∈ runDigits ∨ ch ∈ pieceLetters) ∧ col + colTotal seg = 8 ∧
    ∀ s ∈ segs, SegmentOk s

/-- Expansion of a segment into cells: a digit `d` gives `d` empty cells, any other
character the piece it stands for. -/
def expandSegment : List Char → List Int
  | [] => []
  | ch :: rest =>
    (if ch ∈ runDigits then List.replicate (ch.toNat - '0'.toNat) EMPTY
     else [Board.charToPiece ch]) ++ expandSegment rest

/-- Row `r` of a grid as a list of 8 cells. -/
def Grid.rowList (g : Grid) (r : Fin 8) : List Int :=
  (List.finRange 8).map (g r)

/-! ## Coordinates (`fileRankToRC`, `rcToSquare`) -/

/-- What a call of `fileRankToRC` leaves behind: the returned `bool` and the reference
arguments `row` and `col`. -/
structure RCResult where
  ret : Bool
  row : Int
  col : Int
  deriving DecidableEq, Repr

/-- The function `fileRankToRC`; `row` and `col` are what the reference arguments hold
before the call. -/
def fileRankToRC (file rank : Char) (row col : Int) : RCResult :=
  if file < 'a' ∨ file > 'h' then { ret := false, row := row, col := col }
  else if rank < '1' ∨ rank > '8' then { ret := false, row := row, col := col }
  else
    let col := (file.toNat : Int) - ('a'.toNat : Int)
    let rankNum := (rank.toNat : Int) - ('0'.toNat : Int)
    let row := 8 - rankNum
    { ret := true, row := row, col := col }

/-- The function `rcToSquare`; the two `char` values are computed in `int` and lie in
`'a'..'h'` and `'1'..'8'` behind the range test, so the narrowing to `char` loses nothing. -/
def rcToSquare (row col : Int) : String :=
  if row < 0 ∨ row ≥ 8 ∨ col < 0 ∨ col ≥ 8 then "??"
  else
    let file := Char.ofNat (('a'.toNat : Int) + col).toNat
    let rank := Char.ofNat (('8'.toNat : Int) - row).toNat
    let s := ""
    let s := s.push file
    let s := s.push rank
    s

/-! ## Moves (`Move`, `parseSimpleMove`) -/

/-- The struct `Move`. -/
structure Move where
  fromRow : Int
  fromCol : Int
  toRow : Int
  toCol : Int
  promotion : Piece
  deriving DecidableEq, Repr

/-- The default constructor `Move()`. -/
def Move.zero : Move :=
  { fromRow := 0, fromCol := 0, toRow := 0, toCol := 0, promotion := EMPTY }

/-- The constructor `Move(fr, fc, tr, tc)`, whose `promo` argument defaults to `EMPTY`. -/
def Move.ofSquares (fr fc tr tc : Int) : Move :=
  { fromRow := fr, fromCol := fc, toRow := tr, toCol := tc, promotion := EMPTY }

/-- The expression `s[i]`, each character of the string being one `char`. -/
def strAt (s : String) (i : Nat) : Char :=
  s.toList.getD i (Char.ofNat 0)

/-- What a call of `parseSimpleMove` leaves behind: the returned `bool` and the
reference argument `move`. -/
structure ParseResult where
  ret : Bool
  move : Move
  deriving DecidableEq, Repr

/-- The function `parseSimpleMove`; `move` is what the reference argument holds before the
call. The locals `fr, fc, tr, tc` are declared without a value and are written by
`fileRankToRC` before they are read; they are taken to start at zero. -/
def parseSimpleMove (s : String) (move : Move) : ParseResult :=
  if s.length ≠ 4 then { ret := false, move := move }
  else
    let fromFile := strAt s 0
    let fromRank := strAt s 1
    let toFile := strAt s 2
    let toRank := strAt s 3
    let r1 := fileRankToRC fromFile fromRank 0 0
    if ¬ r1.ret then { ret := false, move := move }
    else
      let r2 := fileRankToRC toFile toRank 0 0
      if ¬ r2.ret then { ret := false, move := move }
      else { ret := true, move := Move.ofSquares r1.row r1.col r2.row r2.col }

/-! ## The symbol printed for a piece (`Board::print`) -/

/-- The `switch (p)` of `Board::print` that chooses the character `symbol` of a cell. -/
def Board.symbol (p : Int) : Char :=
  if p = WP then 'P'
  else if p = WN then 'N'
  else if p = WB then 'B'
  else if p = WR then 'R'
  else if p = WQ then 'Q'
  else if p = WK then 'K'
  else if p = BP then 'p'
  else if p = BN then 'n'
  else if p = BB then 'b'
  else if p = BR then 'r'
  else if p = BQ then 'q'
  else if p = BK then 'k'
  else '.'

/-! ## Square names and move strings as the specification describes them -/

/-- The file letters `a..h`. -/
def fileLetters : List Char := ['a', 'b', 'c', 'd', 'e', 'f', 'g', 'h']

/-- A move string: exactly four characters of the form `[a-h][1-8][a-h][1-8]`. -/
def IsMoveString (s : String) : Prop :=
  ∃ f1 r1 f2 r2 : Char, s.toList = [f1, r1, f2, r2] ∧
    f1 ∈ fileLetters ∧ r1 ∈ runDigits ∧ f2 ∈ fileLetters ∧ r2 ∈ runDigits

/-- A move that differs from every move a parse can produce, a prior content for examples. -/
def markerMove : Move :=
  { fromRow := 9, fromCol := 9, toRow := 9, toCol := 9, promotion := WQ }

/-! ## Sequences of calls on a board -/

/-- One call that can change the grid of a `Board`. -/
inductive BoardOp where
  | clear
  | initStartPosition
  | loadFEN (fen : String)

/-- The grid after one call. -/
def BoardOp.apply (board : Grid) : BoardOp → Grid
  | .clear => Board.clear board
  | .initStartPosition => Board.initStartPosition board
  | .loadFEN fen => (Board.loadFEN board fen).board

/-- The grid after a finite sequence of calls, first call first. -/
def runOps (board : Grid) (ops : List BoardOp) : Grid :=
  ops.foldl BoardOp.apply board

/-- Every cell is a piece code, an integer between -6 and 6. -/
def Grid.InRange (g : Grid) : Prop :=
  ∀ i j : Fin 8, -6 ≤ g i j ∧ g i j ≤ 6

/-! ## The copy of `src/main_v1.cpp` -/

namespace V1

/-- The method `Board::clear` of `main_v1.cpp`. -/
def Board.clear (board : Grid) : Grid :=
  board.assignAll fun _ _ => EMPTY

/-- The method `Board::initStartPosition` of `main_v1.cpp`. -/
def Board.initStartPosition (board : Grid) : Grid :=
  let b0 := Board.clear board
  let black_back_rank : Fin 8 → Int := ![BR, BN, BB, BQ, BK, BB, BN, BR]
  let black_pawns : Fin 8 → Int := ![BP, BP, BP, BP, BP, BP, BP, BP]
  let b1 := (List.finRange 8).foldl
    (fun g c => (g.set 0 c (black_back_rank c)).set 1 c (black_pawns c)) b0
  let white_back_rank : Fin 8 → Int := ![WR, WN, WB, WQ, WK, WB, WN, WR]
  let white_pawns : Fin 8 → Int := ![WP, WP, WP, WP, WP, WP, WP, WP]
  (List.finRange 8).foldl
    (fun g c => (g.set 6 c (white_pawns c)).set 7 c (white_back_rank c)) b1

end V1

/-! ## The copy of `src/main_v2.cpp` -/

namespace V2

/-- The function `fileRankToRC` of `main_v2.cpp`. -/
def fileRankToRC (file rank : Char) (row col : Int) : RCResult :=
  if file < 'a' ∨ file > 'h' then { ret := false, row := row, col := col }
  else if rank < '1' ∨ rank > '8' then { ret := false, row := row, col := col }
  else
    let col := (file.toNat : Int) - ('a'.toNat : Int)
    let rankNum := (rank.toNat : Int) - ('0'.toNat : Int)
    let row := 8 - rankNum
    { ret := true, row := row, col := col }

/-- The function `rcToSquare` of `main_v2.cpp`. -/
def rcToSquare (row col : Int) : String :=
  if row < 0 ∨ row ≥ 8 ∨ col < 0 ∨ col ≥ 8 then "??"
  else
    let file := Char.ofNat (('a'.toNat : Int) + col).toNat
    let rank := Char.ofNat (('8'.toNat : Int) - row).toNat
    let s := ""
    let s := s.push file
    let s := s.push rank
    s

/-- The function `parseSimpleMove` of `main_v2.cpp` (the struct `Move` is the same). -/
def parseSimpleMove (s : String) (move : Move) : ParseResult :=
  if s.length ≠ 4 then { ret := false, move := move }
  else
    let fromFile := strAt s 0
    let fromRank := strAt s 1
    let toFile := strAt s 2
    let toRank := strAt s 3
    let r1 := fileRankToRC fromFile fromRank 0 0
    if ¬ r1.ret then { ret := false, move := move }
    else
      let r2 := fileRankToRC toFile toRank 0 0
      if ¬ r2.ret then { ret := false, move := move }
      else { ret := true, move := Move.ofSquares r1.row r1.col r2.row r2.col }

/-- The method `Board::clear` of `main_v2.cpp`. -/
def Board.clear (board : Grid) : Grid :=
  board.assignAll fun _ _ => EMPTY

/-- The method `Board::initStartPosition` of `main_v2.cpp`. -/
def Board.initStartPosition (board : Grid) : Grid :=
  let b0 := Board.clear board
  let black_back_rank : Fin 8 → Int := ![BR, BN, BB, BQ, BK, BB, BN, BR]
  let black_pawns : Fin 8 → Int := ![BP, BP, BP, BP, BP, BP, BP, BP]
  let b1 := (List.finRange 8).foldl
    (fun g c => (g.set 0 c (black_back_rank c)).set 1 c (black_pawns c)) b0
  let white_back_rank : Fin 8 → Int := ![WR, WN, WB, WQ, WK, WB, WN, WR]
  let white_pawns : Fin 8 → Int := ![WP, WP, WP, WP, WP, WP, WP, WP]
  (List.finRange 8).foldl
    (fun g c => (g.set 6 c (white_pawns c)).set 7 c (white_back_rank c)) b1

/-- The method `Board::charToPiece` of `main_v2.cpp`. -/
def Board.charToPiece (ch : Char) : Piece :=
  if ch = 'P' then WP
  else if ch = 'N' then WN
  else if ch = 'B' then WB
  else if ch = 'R' then WR
  else if ch = 'Q' then WQ
  else if ch = 'K' then WK
  else if ch = 'p' then BP
  else if ch = 'n' then BN
  else if ch = 'b' then BB
  else if ch = 'r' then BR
  else if ch = 'q' then BQ
  else if ch = 'k' then BK
  else EMPTY

/-- One iteration of `for (char ch : boardPart)` in `loadFEN` of `main_v2.cpp`; its six
diagnostics are the ones of `main.cpp`, word for word. -/
def scanStep (st : ScanState) (ch : Char) : Except FenError ScanState :=
  if ch = '/' then
    if st.col ≠ 8 then .error .rowLengthMismatch
    else
      let row := st.row + 1
      let col := 0
      if row ≥ 8 then .error .tooManyRows
      else .ok { row := row, col := col, temp := st.temp }
  else if '1' ≤ ch ∧ ch ≤ '8' then
    let emptyCount := ch.toNat - '0'.toNat
    let col := st.col + emptyCount
    if col > 8 then .error .rowOverflow
    else .ok { row := st.row, col := col, temp := st.temp }
  else
    let p := Board.charToPiece ch
    if p = EMPTY then .error .unknownPieceChar
    else if st.col ≥ 8 then .error .rowOverflow
    else
      match st.temp.write st.row st.col p with
      | none => .error .indexOutOfRange
      | some temp => .ok { row := st.row, col := st.col + 1, temp := temp }

/-- The loop `for (char ch : boardPart)` of `main_v2.cpp`. -/
def scan (st : ScanState) : List Char → Except FenError ScanState
  | [] => .ok st
  | ch :: rest =>
    match scanStep st ch with
    | .error e => .error e
    | .ok st1 => scan st1 rest

/-- The method `Board::loadFEN` of `main_v2.cpp`: the same `find` and `substr` calls
(`boardPart`), the same locals before the loop (`ScanState.init`), its own loop, final
check and copy. -/
def Board.loadFEN (board : Grid) (fen : String) : LoadResult :=
  match scan ScanState.init (boardPart fen.toList) with
  | .error e => { ret := false, diag := some e, board := board }
  | .ok st =>
    if st.row ≠ 7 ∨ st.col ≠ 8 then
      { ret := false, diag := some .incompleteBoard, board := board }
    else
      { ret := true, diag := none, board := board.assignAll st.temp }

end V2

/-! ## Lemmas: the grid -/

theorem Grid.foldl_set_row (f : Fin 8 → Int) (r : Fin 8) (cs : List (Fin 8)) (g : Grid)
    (i j : Fin 8) :
    cs.foldl (fun g c => g.set r c (f c)) g i j
      = if i = r ∧ j ∈ cs then f j else g i j := by
  induction cs generalizing g with
  | nil => simp
  | cons c cs ih =>
    rw [List.foldl_cons, ih]
    by_cases hi : i = r
    · by_cases hj : j ∈ cs
      · simp [hi, hj]
      · by_cases hc : j = c
        · subst hc; simp [hi, hj, Grid.set]
        · simp [hi, hj, hc, Grid.set]
    · simp [hi, Grid.set]

theorem Grid.foldl_rows (f : Fin 8 → Fin 8 → Int) (rs : List (Fin 8)) (g : Grid)
    (i j : Fin 8) :
    rs.foldl (fun g r => (List.finRange 8).foldl (fun g c => g.set r c (f r c)) g) g i j
      = if i ∈ rs then f i j else g i j := by
  induction rs generalizing g with
  | nil => simp
  | cons r rs ih =>
    rw [List.foldl_cons, ih, Grid.foldl_set_row]
    by_cases hi : i ∈ rs
    · simp [hi]
    · by_cases hr : i = r
      · subst hr; simp [hi]
      · simp [hi, hr]

/-- The loop nest overwrites every cell: nothing of the old grid remains. -/
theorem Grid.assignAll_eq (g : Grid) (f : Fin 8 → Fin 8 → Int) : g.assignAll f = f := by
  funext i j
  simp [Grid.assignAll, Grid.foldl_rows]

theorem Board.clear_eq (g : Grid) : Board.clear g = fun _ _ => 0 := by
  simp [Board.clear, Grid.assignAll_eq]

theorem ScanState.init_eq : ScanState.init = { row := 0, col := 0, temp := fun _ _ => 0 } := by
  simp [ScanState.init, Grid.assignAll_eq]

/-- The body of `loadFEN` with the final copy loop summarised. -/
theorem Board.loadFEN_eq (board : Grid) (fen : String) :
    Board.loadFEN board fen =
      match scan ScanState.init (boardPart fen.toList) with
      | .error e => { ret := false, diag := some e, board := board }
      | .ok st =>
        if st.row = 7 ∧ st.col = 8 then { ret := true, diag := none, board := st.temp }
        else { ret := false, diag := some .incompleteBoard, board := board } := by
  unfold Board.loadFEN
  cases scan ScanState.init (boardPart fen.toList) with
  | error e => rfl
  | ok st =>
    by_cases h : st.row = 7 ∧ st.col = 8
    · have h2 : ¬ (st.row ≠ 7 ∨ st.col ≠ 8) := by omega
      simp [h, Grid.assignAll_eq]
    · have h2 : st.row ≠ 7 ∨ st.col ≠ 8 := by omega
      simp [h, h2]

theorem Grid.ext_of_toLists {g h : Grid} (e : g.toLists = h.toLists) : g = h := by
  funext i j
  simp only [Grid.toLists] at e
  have h1 := (List.map_inj_left.1 e) i (List.mem_finRange i)
  exact (List.map_inj_left.1 h1) j (List.mem_finRange j)

/-! ## Lemmas: characters -/

theorem char_eq_of_toNat {a b : Char} (h : a.toNat = b.toNat) : a = b :=
  Char.ext (UInt32.ext h)

theorem char_le_iff (a b : Char) : a ≤ b ↔ a.toNat ≤ b.toNat := Iff.rfl

/-- The range test of the loop selects exactly the digits `1..8`. -/
theorem digit_test_iff (ch : Char) : ('1' ≤ ch ∧ ch ≤ '8') ↔ ch ∈ runDigits := by
  constructor
  · rintro ⟨h1, h2⟩
    rw [char_le_iff] at h1 h2
    have e1 : ('1' : Char).toNat = 49 := rfl
    have e2 : ('8' : Char).toNat = 56 := rfl
    rw [e1] at h1; rw [e2] at h2
    have hn : ch.toNat = 49 ∨ ch.toNat = 50 ∨ ch.toNat = 51 ∨ ch.toNat = 52 ∨
        ch.toNat = 53 ∨ ch.toNat = 54 ∨ ch.toNat = 55 ∨ ch.toNat = 56 := by omega
    rcases hn with h | h | h | h | h | h | h | h
    · have hc := @char_eq_of_toNat ch '1' h; simp [hc, runDigits]
    · have hc := @char_eq_of_toNat ch '2' h; simp [hc, runDigits]
    · have hc := @char_eq_of_toNat ch '3' h; simp [hc, runDigits]
    · have hc := @char_eq_of_toNat ch '4' h; simp [hc, runDigits]
    · have hc := @char_eq_of_toNat ch '5' h; simp [hc, runDigits]
    · have hc := @char_eq_of_toNat ch '6' h; simp [hc, runDigits]
    · have hc := @char_eq_of_toNat ch '7' h; simp [hc, runDigits]
    · have hc := @char_eq_of_toNat ch '8' h; simp [hc, runDigits]
  · intro h
    simp only [runDigits, List.mem_cons, List.mem_singleton, List.not_mem_nil, or_false] at h
    rcases h with h | h | h | h | h | h | h | h <;> subst h <;> decide

theorem digit_value_bounds {ch : Char} (h : ch ∈ runDigits) :
    1 ≤ ch.toNat - '0'.toNat ∧ ch.toNat - '0'.toNat ≤ 8 := by
  simp only [runDigits, List.mem_cons, List.mem_singleton, List.not_mem_nil, or_false] at h
  rcases h with h | h | h | h | h | h | h | h <;> subst h <;> decide

theorem slash_not_digit {ch : Char} (h : ch ∈ runDigits) : ch ≠ '/' := by
  rintro rfl; revert h; decide

theorem slash_not_letter {ch : Char} (h : ch ∈ pieceLetters) : ch ≠ '/' := by
  rintro rfl; revert h; decide

theorem letter_not_digit {ch : Char} (h : ch ∈ pieceLetters) : ch ∉ runDigits := by
  simp only [pieceLetters, List.mem_cons, List.mem_singleton, List.not_mem_nil, or_false] at h
  rcases h with h | h | h | h | h | h | h | h | h | h | h | h <;> subst h <;> decide

/-- The codec returns `EMPTY` exactly off the twelve piece letters. -/
theorem charToPiece_eq_zero_iff (ch : Char) :
    Board.charToPiece ch = 0 ↔ ch ∉ pieceLetters := by
  constructor
  · intro h hm
    simp only [pieceLetters, List.mem_cons, List.mem_singleton, List.not_mem_nil,
      or_false] at hm
    rcases hm with hm | hm | hm | hm | hm | hm | hm | hm | hm | hm | hm | hm <;>
      subst hm <;> revert h <;> decide
  · intro hm
    simp only [pieceLetters, List.mem_cons, List.mem_singleton, List.not_mem_nil,
      or_false, not_or] at hm
    obtain ⟨h1, h2, h3, h4, h5, h6, h7, h8, h9, h10, h11, h12⟩ := hm
    simp only [Board.charToPiece, h1, h2, h3, h4, h5, h6, h7, h8, h9, h10, h11, h12,
      if_false]

/-! ## Lemmas: the board field -/

theorem strFind_none {c : Char} {l : List Char} (h : strFind c l = none) : c ∉ l := by
  induction l with
  | nil => simp
  | cons x xs ih =>
    unfold strFind at h
    by_cases hx : x = c
    · simp [hx] at h
    · simp only [hx, if_false, Option.map_eq_none'] at h
      simp [ih h, Ne.symm hx]

theorem strFind_append (c : Char) (s t : List Char) (h : c ∉ s) :
    strFind c (s ++ c :: t) = some s.length := by
  induction s with
  | nil => simp [strFind]
  | cons x xs ih =>
    have hx : x ≠ c := fun e => h (by simp [e])
    have hxs : c ∉ xs := fun e => h (by simp [e])
    simp [strFind, hx, ih hxs]

/-- Text without a space is its own board field. -/
theorem boardPart_of_not_mem (s : List Char) (h : ' ' ∉ s) : boardPart s = s := by
  unfold boardPart
  cases hf : strFind ' ' s with
  | none => rfl
  | some n =>
    exfalso
    induction s generalizing n with
    | nil => simp [strFind] at hf
    | cons x xs ih =>
      have hx : x ≠ ' ' := fun e => h (by simp [e])
      have hxs : ' ' ∉ xs := fun e => h (by simp [e])
      simp only [strFind, hx, if_false, Option.map_eq_some'] at hf
      obtain ⟨m, hm, _⟩ := hf
      exact ih hxs m hm

/-- Everything from the first space on is dropped. -/
theorem boardPart_append_space (s t : List Char) (h : ' ' ∉ s) :
    boardPart (s ++ ' ' :: t) = s := by
  simp [boardPart, strFind_append ' ' s t h]

/-! ## Lemmas: the scan loop -/

theorem scan_append (st : ScanState) (pre rest : List Char) :
    scan st (pre ++ rest) =
      match scan st pre with
      | .error e => .error e
      | .ok st1 => scan st1 rest := by
  induction pre generalizing st with
  | nil => rfl
  | cons ch pre ih =>
    simp only [List.cons_append, scan]
    cases scanStep st ch with
    | error e => rfl
    | ok st1 => exact ih st1

/-- A failing iteration decides the whole call. -/
theorem Board.loadFEN_of_step_error (board : Grid) (fen : String) (pre rest : List Char)
    (ch : Char) (st : ScanState) (e : FenError)
    (hsplit : boardPart fen.toList = pre ++ ch :: rest)
    (hpre : scan ScanState.init pre = .ok st) (hstep : scanStep st ch = .error e) :
    Board.loadFEN board fen = { ret := false, diag := some e, board := board } := by
  rw [Board.loadFEN_eq, hsplit, scan_append, hpre]
  simp [scan, hstep]

theorem scanCounters_ok {text : List Char} {row col : Nat}
    (h : scanCounters text = .ok (row, col)) :
    ∃ st, scan ScanState.init text = .ok st ∧ st.row = row ∧ st.col = col := by
  unfold scanCounters at h
  cases hs : scan ScanState.init text with
  | error e => rw [hs] at h; cases h
  | ok st =>
    rw [hs] at h
    injection h with h
    injection h with h1 h2
    exact ⟨st, rfl, h1, h2⟩

/-- A successful iteration adds one to `row` at a '/' and leaves it alone otherwise. -/
theorem scanStep_row {st st1 : ScanState} {ch : Char} (h : scanStep st ch = .ok st1) :
    st1.row = st.row + (if ch = '/' then 1 else 0) := by
  unfold scanStep at h
  by_cases h1 : ch = '/'
  · simp only [h1, if_true] at h ⊢
    split_ifs at h
    injection h with h; subst h; rfl
  · simp only [h1, if_false] at h ⊢
    split_ifs at h
    · injection h with h; subst h; rfl
    · split at h
      · cases h
      · injection h with h; subst h; rfl

theorem scan_row {st st1 : ScanState} {text : List Char} (h : scan st text = .ok st1) :
    st1.row = st.row + text.count '/' := by
  induction text generalizing st with
  | nil => simp only [scan] at h; injection h with h; subst h; simp
  | cons ch rest ih =>
    simp only [scan] at h
    cases hs : scanStep st ch with
    | error e => rw [hs] at h; cases h
    | ok st2 =>
      rw [hs] at h
      rw [ih h, scanStep_row hs, List.count_cons]
      by_cases hc : ch = '/'
      · simp [hc]; omega
      · simp [hc]

/-- The outcome of one iteration, by the kind of character read. -/
theorem scanStep_slash (st : ScanState) :
    scanStep st '/' =
      if st.col ≠ 8 then .error .rowLengthMismatch
      else if st.row + 1 ≥ 8 then .error .tooManyRows
      else .ok { row := st.row + 1, col := 0, temp := st.temp } := by
  simp [scanStep]

theorem scanStep_digit (st : ScanState) {ch : Char} (h : ch ∈ runDigits) :
    scanStep st ch =
      if st.col + (ch.toNat - '0'.toNat) > 8 then .error .rowOverflow
      else .ok { row := st.row, col := st.col + (ch.toNat - '0'.toNat), temp := st.temp } := by
  have h1 : ch ≠ '/' := slash_not_digit h
  have h2 : '1' ≤ ch ∧ ch ≤ '8' := (digit_test_iff ch).2 h
  simp only [scanStep, h1, h2, if_false, and_self, if_true]

theorem scanStep_unknown (st : ScanState) {ch : Char} (h1 : ch ≠ '/') (h2 : ch ∉ runDigits)
    (h3 : ch ∉ pieceLetters) : scanStep st ch = .error .unknownPieceChar := by
  have h4 : ¬ ('1' ≤ ch ∧ ch ≤ '8') := fun h => h2 ((digit_test_iff ch).1 h)
  have h5 : Board.charToPiece ch = 0 := (charToPiece_eq_zero_iff ch).2 h3
  simp only [scanStep, h1, h4, h5, if_false, if_true]

theorem scanStep_letter (st : ScanState) {ch : Char} (h : ch ∈ pieceLetters) :
    scanStep st ch =
      if st.col ≥ 8 then .error .rowOverflow
      else
        match st.temp.write st.row st.col (Board.charToPiece ch) with
        | none => .error .indexOutOfRange
        | some temp => .ok { row := st.row, col := st.col + 1, temp := temp } := by
  have h1 : ch ≠ '/' := slash_not_letter h
  have h4 : ¬ ('1' ≤ ch ∧ ch ≤ '8') := fun h2 => letter_not_digit h ((digit_test_iff ch).1 h2)
  have h5 : ¬ Board.charToPiece ch = 0 := fun h0 => (charToPiece_eq_zero_iff ch).1 h0 h
  simp only [scanStep, h1, h4, h5, if_false]

/-- The call succeeds as soon as the loop leaves the board field with counters (7, 8). -/
theorem Board.loadFEN_of_counters (board : Grid) (fen : String)
    (h : scanCounters (boardPart fen.toList) = .ok (7, 8)) :
    Board.loadFEN board fen =
      { ret := true, diag := none, board := scanTemp (boardPart fen.toList) } := by
  obtain ⟨st, hst, hr, hc⟩ := scanCounters_ok h
  rw [Board.loadFEN_eq]
  unfold scanTemp
  rw [hst]
  simp [hr, hc]

/-- The call fails at the final check when the counters are anything else. -/
theorem Board.loadFEN_of_counters_ne (board : Grid) (fen : String) (row col : Nat)
    (h : scanCounters (boardPart fen.toList) = .ok (row, col)) (hne : ¬ (row = 7 ∧ col = 8)) :
    Board.loadFEN board fen =
      { ret := false, diag := some .incompleteBoard, board := board } := by
  obtain ⟨st, hst, hr, hc⟩ := scanCounters_ok h
  rw [Board.loadFEN_eq]
  simp only [hst, hr, hc, hne, if_false]

theorem string_toList_append_space (s t : String) :
    (s ++ " " ++ t).toList = s.toList ++ ' ' :: t.toList := by
  simp [String.toList]

/-! ## Lemmas: segments and acceptance -/

theorem segments_ne_nil (text : List Char) : ∃ seg segs, segments text = seg :: segs := by
  induction text with
  | nil => exact ⟨[], [], rfl⟩
  | cons ch rest ih =>
    obtain ⟨seg, segs, h⟩ := ih
    by_cases hs : ch = '/'
    · exact ⟨[], segments rest, by simp [segments, hs]⟩
    · exact ⟨ch :: seg, segs, by simp [segments, hs, h]⟩

theorem segments_slash (rest : List Char) : segments ('/' :: rest) = [] :: segments rest := by
  simp [segments]

theorem segments_cons_of_ne {ch : Char} {rest seg : List Char} {segs : List (List Char)}
    (hs : ch ≠ '/') (h : segments rest = seg :: segs) :
    segments (ch :: rest) = (ch :: seg) :: segs := by
  simp [segments, hs, h]

theorem rowsOk_nil (row col : Nat) : RowsOk row col [] ↔ row = 7 ∧ col = 8 := by
  constructor
  · rintro ⟨seg, segs, h, hlen, -, hcol, -⟩
    simp only [segments, List.cons.injEq] at h
    obtain ⟨h1, h2⟩ := h
    subst h1 h2
    simp only [List.length_nil, colTotal, List.map_nil, List.sum_nil] at hlen hcol
    omega
  · rintro ⟨hr, hc⟩
    exact ⟨[], [], rfl, by simpa using hr, by simp, by simpa [colTotal] using hc, by simp⟩

theorem rowsOk_slash (row col : Nat) (rest : List Char) :
    RowsOk row col ('/' :: rest) ↔ col = 8 ∧ RowsOk (row + 1) 0 rest := by
  constructor
  · rintro ⟨seg, segs, h, hlen, -, hcol, hall⟩
    rw [segments_slash, List.cons.injEq] at h
    obtain ⟨h1, h2⟩ := h
    subst h1 h2
    obtain ⟨seg1, segs1, h1⟩ := segments_ne_nil rest
    rw [h1] at hlen hall
    have hseg1 := hall seg1 (by simp)
    refine ⟨by simpa [colTotal] using hcol, seg1, segs1, h1, ?_, hseg1.1, ?_, ?_⟩
    · simp only [List.length_cons] at hlen; omega
    · simpa using hseg1.2
    · intro s hs; exact hall s (by simp [hs])
  · rintro ⟨hc, seg1, segs1, h1, hlen, hch, hcol, hall⟩
    refine ⟨[], seg1 :: segs1, by rw [segments_slash, h1], ?_, by simp, by simpa [colTotal] using hc, ?_⟩
    · simp only [List.length_cons]; omega
    · intro s hs
      rcases List.mem_cons.1 hs with rfl | hs
      · exact ⟨hch, by simpa using hcol⟩
      · exact hall s hs

theorem rowsOk_cons (row col : Nat) {ch : Char} (rest : List Char) (hs : ch ≠ '/') :
    RowsOk row col (ch :: rest) ↔
      (ch ∈ runDigits ∨ ch ∈ pieceLetters) ∧ RowsOk row (col + colValue ch) rest := by
  obtain ⟨seg1, segs1, h1⟩ := segments_ne_nil rest
  constructor
  · rintro ⟨seg, segs, h, hlen, hch, hcol, hall⟩
    rw [segments_cons_of_ne hs h1, List.cons.injEq] at h
    obtain ⟨h2, h3⟩ := h
    subst h2 h3
    refine ⟨hch ch (by simp), seg1, segs1, h1, hlen, fun c hc => hch c (by simp [hc]), ?_, hall⟩
    simp only [colTotal, List.map_cons, List.sum_cons] at hcol ⊢
    omega
  · rintro ⟨hc, seg, segs, h, hlen, hch, hcol, hall⟩
    rw [h1, List.cons.injEq] at h
    obtain ⟨h2, h3⟩ := h
    subst h2 h3
    refine ⟨ch :: seg1, segs1, segments_cons_of_ne hs h1, hlen, ?_, ?_, hall⟩
    · intro c hcm
      rcases List.mem_cons.1 hcm with rfl | hcm
      · exact hc
      · exact hch c hcm
    · simp only [colTotal, List.map_cons, List.sum_cons] at hcol ⊢
      omega

theorem rowsOk_col_le {row col : Nat} {text : List Char} (h : RowsOk row col text) :
    row ≤ 7 ∧ col ≤ 8 := by
  obtain ⟨seg, segs, -, hlen, -, hcol, -⟩ := h
  omega

theorem Grid.write_of_lt (g : Grid) {r c : Nat} (v : Int) (hr : r < 8) (hc : c < 8) :
    g.write r c v = some (g.set ⟨r, hr⟩ ⟨c, hc⟩ v) := by
  simp [Grid.write, hr, hc]

/-- The loop leaves a text with counters (7, 8) exactly when the text is the rest of a
well-formed board field. -/
theorem scan_accepts_iff (text : List Char) : ∀ st : ScanState, st.row ≤ 7 →
    ((∃ st1, scan st text = .ok st1 ∧ st1.row = 7 ∧ st1.col = 8) ↔
      RowsOk st.row st.col text) := by
  induction text with
  | nil =>
    intro st _
    rw [rowsOk_nil]
    constructor
    · rintro ⟨st1, h, hr, hc⟩
      simp only [scan] at h
      injection h with h
      subst h
      exact ⟨hr, hc⟩
    · rintro ⟨hr, hc⟩
      exact ⟨st, rfl, hr, hc⟩
  | cons ch rest ih =>
    intro st hrow
    by_cases hs : ch = '/'
    · subst hs
      rw [rowsOk_slash]
      simp only [scan, scanStep_slash]
      by_cases hc : st.col = 8
      · by_cases hr : st.row + 1 ≥ 8
        · simp only [hc, ne_eq, not_true, if_false, hr, if_true]
          constructor
          · rintro ⟨st1, h, -⟩
            cases h
          · rintro ⟨-, h⟩
            have := (rowsOk_col_le h).1
            omega
        · simp only [hc, ne_eq, not_true, if_false, hr, true_and]
          exact ih { row := st.row + 1, col := 0, temp := st.temp } (by simp only; omega)
      · simp only [ne_eq, hc, not_false_eq_true, if_true, false_and, iff_false]
        rintro ⟨st1, h, -⟩
        cases h
    · rw [rowsOk_cons _ _ _ hs]
      by_cases hd : ch ∈ runDigits
      · have hv : colValue ch = ch.toNat - '0'.toNat := by simp [colValue, hd]
        simp only [scan, scanStep_digit st hd, hd, true_or, true_and, hv]
        by_cases hgt : st.col + (ch.toNat - '0'.toNat) > 8
        · simp only [hgt, if_true]
          constructor
          · rintro ⟨st1, h, -⟩
            cases h
          · intro h
            have := (rowsOk_col_le h).2
            omega
        · simp only [hgt, if_false]
          exact ih { row := st.row, col := st.col + (ch.toNat - '0'.toNat), temp := st.temp }
            hrow
      · by_cases hl : ch ∈ pieceLetters
        · have hv : colValue ch = 1 := by simp [colValue, hd]
          simp only [scan, scanStep_letter st hl, hl, or_true, true_and, hv]
          by_cases hge : st.col ≥ 8
          · simp only [hge, if_true]
            constructor
            · rintro ⟨st1, h, -⟩
              cases h
            · intro h
              have := (rowsOk_col_le h).2
              omega
          · simp only [hge, if_false,
              Grid.write_of_lt st.temp (Board.charToPiece ch) (by omega : st.row < 8)
                (by omega : st.col < 8)]
            exact ih _ hrow
        · simp only [scan, scanStep_unknown st hs hd hl, hd, hl, or_self, false_and, iff_false]
          rintro ⟨st1, h, -⟩
          cases h

/-! ## Lemmas: content of the staging grid -/

theorem getD_replicate_append (d k : Nat) (l : List Int) :
    (List.replicate d (0 : Int) ++ l).getD k 0 = if k < d then 0 else l.getD (k - d) 0 := by
  induction d generalizing k with
  | zero => simp
  | succ d ih =>
    cases k with
    | zero => simp [List.replicate_succ]
    | succ k =>
      simp only [List.replicate_succ, List.cons_append, List.getD_cons_succ, ih,
        Nat.add_lt_add_iff_right, Nat.add_sub_add_right]

theorem expandSegment_digit {ch : Char} (rest : List Char) (h : ch ∈ runDigits) :
    expandSegment (ch :: rest)
      = List.replicate (ch.toNat - '0'.toNat) 0 ++ expandSegment rest := by
  simp [expandSegment, h]

theorem expandSegment_letter {ch : Char} (rest : List Char) (h : ch ∈ pieceLetters) :
    expandSegment (ch :: rest) = Board.charToPiece ch :: expandSegment rest := by
  simp [expandSegment, letter_not_digit h]

theorem expandSegment_length (seg : List Char) : (expandSegment seg).length = colTotal seg := by
  induction seg with
  | nil => rfl
  | cons ch rest ih =>
    by_cases h : ch ∈ runDigits
    · simp [expandSegment, colTotal, colValue, h] at ih ⊢
      exact ih
    · simp [expandSegment, colTotal, colValue, h] at ih ⊢
      omega

/-- Cells of the staging grid when the loop leaves a text without failure: what precedes
the starting position is kept, the rest is the expansion of the segments, provided the
grid was empty from the starting position on. -/
theorem scan_content (text : List Char) : ∀ (st st1 : ScanState) (seg : List Char)
    (segs : List (List Char)), st.row ≤ 7 → scan st text = .ok st1 →
    segments text = seg :: segs →
    (∀ i j : Fin 8, (st.row < i.val ∨ (st.row = i.val ∧ st.col ≤ j.val)) → st.temp i j = 0) →
    ∀ i j : Fin 8, st1.temp i j =
      if i.val < st.row ∨ (i.val = st.row ∧ j.val < st.col) then st.temp i j
      else if i.val = st.row then (expandSegment seg).getD (j.val - st.col) 0
      else (expandSegment (segs.getD (i.val - st.row - 1) [])).getD j.val 0 := by
  induction text with
  | nil =>
    intro st st1 seg segs _ hscan hseg hempty i j
    simp only [scan] at hscan
    injection hscan with hscan
    subst hscan
    simp only [segments, List.cons.injEq] at hseg
    obtain ⟨h1, h2⟩ := hseg
    subst h1 h2
    by_cases hb : i.val < st.row ∨ (i.val = st.row ∧ j.val < st.col)
    · rw [if_pos hb]
    · rw [if_neg hb, hempty i j (by omega)]
      simp [expandSegment]
  | cons ch rest ih =>
    intro st st1 seg segs hrow hscan hseg hempty i j
    obtain ⟨seg1, segs1, h1⟩ := segments_ne_nil rest
    by_cases hs : ch = '/'
    · subst hs
      rw [segments_slash, h1, List.cons.injEq] at hseg
      obtain ⟨h2, h3⟩ := hseg
      subst h2 h3
      simp only [scan, scanStep_slash] at hscan
      by_cases hc : st.col ≠ 8
      · rw [if_pos hc] at hscan; cases hscan
      · rw [if_neg hc] at hscan
        by_cases hr : st.row + 1 ≥ 8
        · rw [if_pos hr] at hscan; cases hscan
        · rw [if_neg hr] at hscan
          have key : st1.temp i j =
              if i.val < st.row + 1 ∨ (i.val = st.row + 1 ∧ j.val < 0) then st.temp i j
              else if i.val = st.row + 1 then (expandSegment seg1).getD (j.val - 0) 0
              else (expandSegment (segs1.getD (i.val - (st.row + 1) - 1) [])).getD j.val 0 :=
            ih (⟨st.row + 1, 0, st.temp⟩ : ScanState) st1 seg1 segs1 (by simp only; omega)
              hscan h1 (fun a b hab => hempty a b (by simp only at hab; omega)) i j
          rw [key]
          by_cases hi1 : i.val < st.row + 1
          · rw [if_pos (Or.inl hi1)]
            by_cases hb : i.val < st.row ∨ (i.val = st.row ∧ j.val < st.col)
            · rw [if_pos hb]
            · have hi2 : i.val = st.row := by omega
              rw [if_neg hb, if_pos hi2, hempty i j (by omega)]
              simp [expandSegment]
          · have hA : ¬ (i.val < st.row + 1 ∨ (i.val = st.row + 1 ∧ j.val < 0)) := by omega
            have hB : ¬ (i.val < st.row ∨ (i.val = st.row ∧ j.val < st.col)) := by omega
            have hC : ¬ (i.val = st.row) := by omega
            rw [if_neg hA, if_neg hB, if_neg hC]
            by_cases hi3 : i.val = st.row + 1
            · have e : i.val - st.row - 1 = 0 := by omega
              rw [if_pos hi3, e]
              simp
            · have e : i.val - st.row - 1 = (i.val - (st.row + 1) - 1) + 1 := by omega
              rw [if_neg hi3, e, List.getD_cons_succ]
    · have hseg2 := segments_cons_of_ne hs h1
      rw [hseg2, List.cons.injEq] at hseg
      obtain ⟨h2, h3⟩ := hseg
      subst h2 h3
      by_cases hd : ch ∈ runDigits
      · simp only [scan, scanStep_digit st hd] at hscan
        by_cases hgt : st.col + (ch.toNat - '0'.toNat) > 8
        · rw [if_pos hgt] at hscan; cases hscan
        · rw [if_neg hgt] at hscan
          have key : st1.temp i j =
              if i.val < st.row ∨ (i.val = st.row ∧ j.val < st.col + (ch.toNat - '0'.toNat))
                then st.temp i j
              else if i.val = st.row then
                (expandSegment seg1).getD (j.val - (st.col + (ch.toNat - '0'.toNat))) 0
              else (expandSegment (segs1.getD (i.val - st.row - 1) [])).getD j.val 0 :=
            ih (⟨st.row, st.col + (ch.toNat - '0'.toNat), st.temp⟩ : ScanState) st1 seg1 segs1
              hrow hscan h1 (fun a b hab => hempty a b (by simp only at hab; omega)) i j
          rw [key, expandSegment_digit seg1 hd, getD_replicate_append]
          by_cases hb : i.val < st.row ∨ (i.val = st.row ∧ j.val < st.col)
          · have hb2 : i.val < st.row ∨
                (i.val = st.row ∧ j.val < st.col + (ch.toNat - '0'.toNat)) := by omega
            rw [if_pos hb, if_pos hb2]
          · by_cases hi : i.val = st.row
            · by_cases hj : j.val - st.col < ch.toNat - '0'.toNat
              · have hb2 : i.val < st.row ∨
                    (i.val = st.row ∧ j.val < st.col + (ch.toNat - '0'.toNat)) := by omega
                rw [if_pos hb2, if_neg hb, if_pos hi, if_pos hj]
                exact hempty i j (by omega)
              · have hb2 : ¬ (i.val < st.row ∨
                    (i.val = st.row ∧ j.val < st.col + (ch.toNat - '0'.toNat))) := by omega
                have e : j.val - (st.col + (ch.toNat - '0'.toNat))
                    = j.val - st.col - (ch.toNat - '0'.toNat) := by omega
                rw [if_neg hb2, if_neg hb, if_pos hi, if_pos hi, if_neg hj, e]
            · have hb2 : ¬ (i.val < st.row ∨
                  (i.val = st.row ∧ j.val < st.col + (ch.toNat - '0'.toNat))) := by omega
              rw [if_neg hb2, if_neg hb, if_neg hi, if_neg hi]
      · by_cases hl : ch ∈ pieceLetters
        · simp only [scan, scanStep_letter st hl] at hscan
          by_cases hge : st.col ≥ 8
          · rw [if_pos hge] at hscan; cases hscan
          · have hr8 : st.row < 8 := by omega
            have hc8 : st.col < 8 := by omega
            rw [if_neg hge, Grid.write_of_lt st.temp (Board.charToPiece ch) hr8 hc8] at hscan
            have hset : ∀ a b : Fin 8,
                (st.temp.set ⟨st.row, hr8⟩ ⟨st.col, hc8⟩ (Board.charToPiece ch)) a b
                  = if a.val = st.row ∧ b.val = st.col then Board.charToPiece ch
                    else st.temp a b := by
              intro a b
              simp only [Grid.set, Fin.ext_iff]
            have key : st1.temp i j =
                if i.val < st.row ∨ (i.val = st.row ∧ j.val < st.col + 1) then
                  (st.temp.set ⟨st.row, hr8⟩ ⟨st.col, hc8⟩ (Board.charToPiece ch)) i j
                else if i.val = st.row then (expandSegment seg1).getD (j.val - (st.col + 1)) 0
                else (expandSegment (segs1.getD (i.val - st.row - 1) [])).getD j.val 0 :=
              ih (⟨st.row, st.col + 1,
                  st.temp.set ⟨st.row, hr8⟩ ⟨st.col, hc8⟩ (Board.charToPiece ch)⟩ : ScanState)
                st1 seg1 segs1 hrow hscan h1
                (fun a b hab => by
                  simp only at hab
                  have hne : ¬ (a.val = st.row ∧ b.val = st.col) := by omega
                  show (st.temp.set ⟨st.row, hr8⟩ ⟨st.col, hc8⟩ (Board.charToPiece ch)) a b = 0
                  rw [hset a b, if_neg hne, hempty a b (by omega)]) i j
            rw [key, hset, expandSegment_letter seg1 hl]
            by_cases hb : i.val < st.row ∨ (i.val = st.row ∧ j.val < st.col)
            · have hb2 : i.val < st.row ∨ (i.val = st.row ∧ j.val < st.col + 1) := by omega
              have hne : ¬ (i.val = st.row ∧ j.val = st.col) := by omega
              rw [if_pos hb, if_pos hb2, if_neg hne]
            · by_cases hi : i.val = st.row
              · by_cases hj : j.val = st.col
                · have hb2 : i.val < st.row ∨ (i.val = st.row ∧ j.val < st.col + 1) := by
                    omega
                  have e : j.val - st.col = 0 := by omega
                  rw [if_pos hb2, if_pos ⟨hi, hj⟩, if_neg hb, if_pos hi, e,
                    List.getD_cons_zero]
                · have hb2 : ¬ (i.val < st.row ∨ (i.val = st.row ∧ j.val < st.col + 1)) := by
                    omega
                  have e : j.val - st.col = (j.val - (st.col + 1)) + 1 := by omega
                  rw [if_neg hb2, if_neg hb, if_pos hi, if_pos hi, e, List.getD_cons_succ]
              · have hb2 : ¬ (i.val < st.row ∨ (i.val = st.row ∧ j.val < st.col + 1)) := by
                  omega
                rw [if_neg hb2, if_neg hb, if_neg hi, if_neg hi]
        · rw [scan, scanStep_unknown st hs hd hl] at hscan
          cases hscan

theorem boardPart_eq_takeWhile (text : List Char) :
    boardPart text = text.takeWhile fun c => c != ' ' := by
  induction text with
  | nil => rfl
  | cons x xs ih =>
    by_cases hx : x = ' '
    · simp [boardPart, strFind, hx]
    · have hstep : boardPart (x :: xs) = x :: boardPart xs := by
        unfold boardPart
        simp only [strFind, hx, if_false]
        cases strFind ' ' xs with
        | none => rfl
        | some n => rfl
      have hne : (x != ' ') = true := by simpa using hx
      rw [hstep, ih, List.takeWhile_cons, hne, if_pos rfl]

theorem boardPart_eq_boardField (fen : String) : boardPart fen.toList = boardField fen :=
  boardPart_eq_takeWhile fen.toList

theorem rowsOk_zero_iff (text : List Char) : RowsOk 0 0 text ↔ FieldOk text := by
  constructor
  · rintro ⟨seg, segs, h, hlen, hch, hcol, hall⟩
    refine ⟨by rw [h, List.length_cons]; omega, ?_⟩
    intro s hs
    rw [h] at hs
    rcases List.mem_cons.1 hs with rfl | hs
    · exact ⟨hch, by omega⟩
    · exact hall s hs
  · rintro ⟨hlen, hall⟩
    obtain ⟨seg, segs, h⟩ := segments_ne_nil text
    rw [h] at hlen hall
    have hseg := hall seg (by simp)
    refine ⟨seg, segs, h, ?_, hseg.1, by have := hseg.2; omega, fun s hs => hall s (by simp [hs])⟩
    simp only [List.length_cons] at hlen
    omega

/-- The call returns true exactly when the loop leaves the board field with (7, 8). -/
theorem Board.loadFEN_ret_iff (board : Grid) (fen : String) :
    (Board.loadFEN board fen).ret = true ↔
      ∃ st1, scan ScanState.init (boardPart fen.toList) = .ok st1 ∧ st1.row = 7 ∧ st1.col = 8 := by
  rw [Board.loadFEN_eq]
  cases hs : scan ScanState.init (boardPart fen.toList) with
  | error e =>
    constructor
    · intro h; cases h
    · rintro ⟨st1, h, -⟩; cases h
  | ok st =>
    by_cases hc : st.row = 7 ∧ st.col = 8
    · simp only [hc, and_self, if_true, true_iff]
      exact ⟨st, rfl, hc.1, hc.2⟩
    · simp only [hc, if_false, Bool.false_eq_true, false_iff]
      rintro ⟨st1, h, hr, hcc⟩
      injection h with h
      subst h
      exact hc ⟨hr, hcc⟩

theorem Board.loadFEN_of_scan (board : Grid) (fen : String) (st1 : ScanState)
    (h : scan ScanState.init (boardPart fen.toList) = .ok st1) (hr : st1.row = 7)
    (hc : st1.col = 8) :
    Board.loadFEN board fen = { ret := true, diag := none, board := st1.temp } := by
  rw [Board.loadFEN_eq, h]
  simp [hr, hc]

theorem map_finRange_eq_of_getD (l : List Int) (f : Fin 8 → Int) (hlen : l.length = 8)
    (h : ∀ j : Fin 8, f j = l.getD j.val 0) : (List.finRange 8).map f = l := by
  apply List.ext_getElem
  · simp [hlen]
  · intro k h1 h2
    have hk : k < 8 := by simpa using h1
    simp only [List.getElem_map, List.getElem_finRange]
    have := h ⟨k, hk⟩
    simp only [List.getD_eq_getElem?_getD, List.getElem?_eq_getElem h2, Option.getD_some] at this
    exact this

theorem Board.initStartPosition_toLists (prior : Grid) :
    (Board.initStartPosition prior).toLists = startRows := rfl

theorem scanTemp_startFEN : (scanTemp startFEN.toList).toLists = startRows := by
  decide!

/-! ## The claims -/

/-- C1 (atomicity of decode): whenever `loadFEN` returns false, the board holds after
the call exactly the 64 cells it held before. -/
theorem Board.loadFEN_fail_board (board : Grid) (fen : String)
    (h : (Board.loadFEN board fen).ret = false) : (Board.loadFEN board fen).board = board := by
  rw [Board.loadFEN_eq] at h ⊢
  cases hs : scan ScanState.init (boardPart fen.toList) with
  | error e => rfl
  | ok st =>
    rw [hs] at h
    by_cases hc : st.row = 7 ∧ st.col = 8
    · simp [hc] at h
    · simp [hc]

theorem Board.loadFEN_fail_board_witness :
    (Board.loadFEN kingsGrid "8/8/8/3p4/4P3/8/8/7X w - - 0 1").ret = false ∧
    (Board.loadFEN kingsGrid "8/8/8/3p4/4P3/8/8/7X w - - 0 1").board = kingsGrid :=
  ⟨rfl, Board.loadFEN_fail_board kingsGrid "8/8/8/3p4/4P3/8/8/7X w - - 0 1" rfl⟩

/-- C5 (row length check): when the scan of the board field reaches a '/' with no earlier
failure and the column counter is not 8, `loadFEN` returns false with the row-length
diagnostic and the board is unchanged. -/
theorem Board.loadFEN_row_length_mismatch (board : Grid) (fen : String)
    (pre rest : List Char) (row col : Nat)
    (hsplit : boardPart fen.toList = pre ++ '/' :: rest)
    (hpre : scanCounters pre = .ok (row, col)) (hcol : col ≠ 8) :
    Board.loadFEN board fen =
      { ret := false, diag := some .rowLengthMismatch, board := board } := by
  obtain ⟨st, hst, -, hc⟩ := scanCounters_ok hpre
  apply Board.loadFEN_of_step_error board fen pre rest '/' st _ hsplit hst
  rw [scanStep_slash]
  simp [hc, hcol]

theorem Board.loadFEN_row_length_mismatch_witness :
    scanCounters "6k".toList = .ok (0, 7) ∧
    Board.loadFEN kingsGrid "6k/8/8/8/8/8/8/8" =
      { ret := false, diag := some .rowLengthMismatch, board := kingsGrid } :=
  ⟨rfl, Board.loadFEN_row_length_mismatch kingsGrid "6k/8/8/8/8/8/8/8" "6k".toList
    "8/8/8/8/8/8/8".toList 0 7 rfl rfl (by decide)⟩

/-- C6 (row count check): when the scan of the board field reaches an eighth '/' with no
earlier failure and the eighth row is complete (column counter 8), `loadFEN` returns
false with the too-many-rows diagnostic and the board is unchanged. -/
theorem Board.loadFEN_too_many_rows (board : Grid) (fen : String)
    (pre rest : List Char) (row col : Nat)
    (hsplit : boardPart fen.toList = pre ++ '/' :: rest)
    (hpre : scanCounters pre = .ok (row, col))
    (heighth : pre.count '/' = 7) (hcol : col = 8) :
    Board.loadFEN board fen =
      { ret := false, diag := some .tooManyRows, board := board } := by
  obtain ⟨st, hst, -, hc⟩ := scanCounters_ok hpre
  have hrow : st.row = 7 := by
    have h := scan_row hst
    rw [heighth, ScanState.init_eq] at h
    simpa using h
  apply Board.loadFEN_of_step_error board fen pre rest '/' st _ hsplit hst
  rw [scanStep_slash]
  simp [hc, hcol, hrow]

theorem Board.loadFEN_too_many_rows_witness :
    scanCounters "8/8/8/8/8/8/8/8".toList = .ok (7, 8) ∧
    Board.loadFEN kingsGrid "8/8/8/8/8/8/8/8/8" =
      { ret := false, diag := some .tooManyRows, board := kingsGrid } :=
  ⟨rfl, Board.loadFEN_too_many_rows kingsGrid "8/8/8/8/8/8/8/8/8" "8/8/8/8/8/8/8/8".toList
    "8".toList 7 8 rfl rfl rfl rfl⟩

/-- C7 (unknown character check): when the scan of the board field reaches, with no
earlier failure, a character that is not '/', not a digit `1..8` and not a piece letter,
`loadFEN` returns false with the unknown-character diagnostic, whatever the column
counter is, and the board is unchanged. -/
theorem Board.loadFEN_unknown_piece_char (board : Grid) (fen : String)
    (pre rest : List Char) (ch : Char) (row col : Nat)
    (hsplit : boardPart fen.toList = pre ++ ch :: rest)
    (hpre : scanCounters pre = .ok (row, col))
    (hslash : ch ≠ '/') (hdigit : ch ∉ runDigits) (hletter : ch ∉ pieceLetters) :
    Board.loadFEN board fen =
      { ret := false, diag := some .unknownPieceChar, board := board } := by
  obtain ⟨st, hst, -, -⟩ := scanCounters_ok hpre
  exact Board.loadFEN_of_step_error board fen pre rest ch st _ hsplit hst
    (scanStep_unknown st hslash hdigit hletter)

theorem Board.loadFEN_unknown_piece_char_witness :
    (Board.loadFEN kingsGrid "8/8/8/8/8/8/8/7X" =
      { ret := false, diag := some .unknownPieceChar, board := kingsGrid }) ∧
    (scanCounters "8/8/8/8".toList = .ok (3, 8) ∧
      Board.loadFEN kingsGrid "8/8/8/80/8/8/8/8" =
        { ret := false, diag := some .unknownPieceChar, board := kingsGrid }) ∧
    (Board.loadFEN kingsGrid "8/8/8/9/8/8/8/8" =
      { ret := false, diag := some .unknownPieceChar, board := kingsGrid }) :=
  ⟨Board.loadFEN_unknown_piece_char kingsGrid "8/8/8/8/8/8/8/7X" "8/8/8/8/8/8/8/7".toList []
      'X' 7 7 rfl rfl (by decide) (by decide) (by decide),
    ⟨rfl, Board.loadFEN_unknown_piece_char kingsGrid "8/8/8/80/8/8/8/8" "8/8/8/8".toList
      "/8/8/8/8".toList '0' 3 8 rfl rfl (by decide) (by decide) (by decide)⟩,
    Board.loadFEN_unknown_piece_char kingsGrid "8/8/8/9/8/8/8/8" "8/8/8/".toList
      "/8/8/8/8".toList '9' 3 0 rfl rfl (by decide) (by decide) (by decide)⟩

/-- C8 (row overflow check): when the scan of the board field reaches, with no earlier
failure, a digit `1..8` whose value added to the column counter exceeds 8, or a piece
letter while the column counter is 8, `loadFEN` returns false with the row-overflow
diagnostic and the board is unchanged. -/
theorem Board.loadFEN_row_overflow (board : Grid) (fen : String)
    (pre rest : List Char) (ch : Char) (row col : Nat)
    (hsplit : boardPart fen.toList = pre ++ ch :: rest)
    (hpre : scanCounters pre = .ok (row, col))
    (hch : (ch ∈ runDigits ∧ col + (ch.toNat - '0'.toNat) > 8) ∨
      (ch ∈ pieceLetters ∧ col = 8)) :
    Board.loadFEN board fen =
      { ret := false, diag := some .rowOverflow, board := board } := by
  obtain ⟨st, hst, -, hc⟩ := scanCounters_ok hpre
  apply Board.loadFEN_of_step_error board fen pre rest ch st _ hsplit hst
  rcases hch with ⟨hd, hgt⟩ | ⟨hl, h8⟩
  · rw [scanStep_digit st hd, hc, if_pos hgt]
  · rw [scanStep_letter st hl, hc, h8]
    simp

theorem Board.loadFEN_row_overflow_witness :
    (Board.loadFEN kingsGrid "54/8/8/8/8/8/8/8" =
      { ret := false, diag := some .rowOverflow, board := kingsGrid }) ∧
    (Board.loadFEN kingsGrid "8p/8/8/8/8/8/8/8" =
      { ret := false, diag := some .rowOverflow, board := kingsGrid }) :=
  ⟨Board.loadFEN_row_overflow kingsGrid "54/8/8/8/8/8/8/8" "5".toList "/8/8/8/8/8/8/8".toList
      '4' 0 5 rfl rfl (Or.inl (by decide)),
    Board.loadFEN_row_overflow kingsGrid "8p/8/8/8/8/8/8/8" "8".toList
      "/8/8/8/8/8/8/8".toList 'p' 0 8 rfl rfl (Or.inr (by decide))⟩

/-- C4 (standard start): for every prior board, `loadFEN` on the standard start string,
alone or followed by a space and any trailing text, returns true and leaves the grid that
`initStartPosition` produces (from any board). -/
theorem Board.loadFEN_startFEN (board prior : Grid) (trailing : String) :
    Board.loadFEN board startFEN =
      { ret := true, diag := none, board := Board.initStartPosition prior } ∧
    Board.loadFEN board (startFEN ++ " " ++ trailing) =
      { ret := true, diag := none, board := Board.initStartPosition prior } ∧
    Board.loadFEN board "rnbqkbnr/pppppppp/8/8/8/8/PPPPPPPP/RNBQKBNR w KQkq - 0 1" =
      { ret := true, diag := none, board := Board.initStartPosition prior } := by
  have hgrid : scanTemp startFEN.toList = Board.initStartPosition prior :=
    Grid.ext_of_toLists (scanTemp_startFEN.trans (Board.initStartPosition_toLists prior).symm)
  have hfield : boardPart (startFEN ++ " " ++ trailing).toList = startFEN.toList := by
    rw [string_toList_append_space]
    exact boardPart_append_space _ _ (by decide)
  refine ⟨?_, ?_, ?_⟩
  · rw [Board.loadFEN_of_counters board startFEN rfl, ← hgrid]
    rfl
  · rw [Board.loadFEN_of_counters board _ (by rw [hfield]; rfl), hfield, hgrid]
  · have hfull :
        boardPart "rnbqkbnr/pppppppp/8/8/8/8/PPPPPPPP/RNBQKBNR w KQkq - 0 1".toList
          = startFEN.toList := rfl
    rw [Board.loadFEN_of_counters board
      "rnbqkbnr/pppppppp/8/8/8/8/PPPPPPPP/RNBQKBNR w KQkq - 0 1" (by rw [hfull]; rfl),
      hfull, hgrid]

/-- C9 (completeness check): when the board field is scanned to its end without a
failure, `loadFEN` fails with the incomplete-board diagnostic (board unchanged) exactly
when the final counters are not row 7 and column 8, and returns true otherwise. -/
theorem Board.loadFEN_incomplete_iff (board : Grid) (fen : String) (row col : Nat)
    (hscan : scanCounters (boardPart fen.toList) = .ok (row, col)) :
    (Board.loadFEN board fen = { ret := false, diag := some .incompleteBoard, board := board }
      ↔ ¬ (row = 7 ∧ col = 8)) ∧
    (((Board.loadFEN board fen).ret = true ∧ (Board.loadFEN board fen).diag = none)
      ↔ (row = 7 ∧ col = 8)) := by
  by_cases h : row = 7 ∧ col = 8
  · obtain ⟨hr, hc⟩ := h
    subst hr hc
    rw [Board.loadFEN_of_counters board fen hscan]
    simp
  · rw [Board.loadFEN_of_counters_ne board fen row col hscan h]
    simp [h]

theorem Board.loadFEN_incomplete_iff_witness :
    Board.loadFEN kingsGrid "" =
      { ret := false, diag := some .incompleteBoard, board := kingsGrid } ∧
    Board.loadFEN kingsGrid "8/8" =
      { ret := false, diag := some .incompleteBoard, board := kingsGrid } ∧
    Board.loadFEN kingsGrid "8/8/8/8/8/8/8/7" =
      { ret := false, diag := some .incompleteBoard, board := kingsGrid } ∧
    ((Board.loadFEN kingsGrid "8/8/8/8/8/8/8/8").ret = true ∧
      (Board.loadFEN kingsGrid "8/8/8/8/8/8/8/8").diag = none) :=
  ⟨(Board.loadFEN_incomplete_iff kingsGrid "" 0 0 rfl).1.2 (by decide),
    (Board.loadFEN_incomplete_iff kingsGrid "8/8" 1 8 rfl).1.2 (by decide),
    (Board.loadFEN_incomplete_iff kingsGrid "8/8/8/8/8/8/8/7" 7 7 rfl).1.2 (by decide),
    (Board.loadFEN_incomplete_iff kingsGrid "8/8/8/8/8/8/8/8" 7 8 rfl).2.2 (by decide)⟩

/-- C10, as the code has it: when the board field ends with no earlier failure while the
last row has a column count other than 8, `loadFEN` fails at the final check with the
incomplete-board diagnostic (not the row-length one) and the board is unchanged. -/
theorem Board.loadFEN_short_last_row (board : Grid) (fen : String) (row col : Nat)
    (hscan : scanCounters (boardPart fen.toList) = .ok (row, col)) (hcol : col ≠ 8) :
    Board.loadFEN board fen =
      { ret := false, diag := some .incompleteBoard, board := board } :=
  Board.loadFEN_of_counters_ne board fen row col hscan (fun h => hcol h.2)

theorem Board.loadFEN_short_last_row_witness :
    scanCounters (boardPart "8/8/8/8/8/8/8/7".toList) = .ok (7, 7) ∧
    Board.loadFEN kingsGrid "8/8/8/8/8/8/8/7" =
      { ret := false, diag := some .incompleteBoard, board := kingsGrid } :=
  ⟨rfl, Board.loadFEN_short_last_row kingsGrid "8/8/8/8/8/8/8/7" 7 7 rfl (by decide)⟩

/-- C10 as stated fails: the board field "8/8/8/8/8/8/8/7" ends, with no earlier failure,
on a last row of 7 columns, and the diagnostic is not the row-length one. -/
theorem Board.loadFEN_short_last_row_counterexample :
    scanCounters (boardPart "8/8/8/8/8/8/8/7".toList) = .ok (7, 7) ∧
    (Board.loadFEN kingsGrid "8/8/8/8/8/8/8/7").ret = false ∧
    (Board.loadFEN kingsGrid "8/8/8/8/8/8/8/7").diag = some .incompleteBoard ∧
    (Board.loadFEN kingsGrid "8/8/8/8/8/8/8/7").diag ≠ some .rowLengthMismatch :=
  ⟨rfl, rfl, rfl, fun h => by
    have h2 : (Board.loadFEN kingsGrid "8/8/8/8/8/8/8/7").diag = some .incompleteBoard := rfl
    rw [h2] at h
    cases h⟩

/-- C2 (acceptance characterisation): `loadFEN` returns true if and only if the board
field (the text before the first space, or the whole input), split at every '/', has
exactly 8 segments, each made only of digits `1..8` and piece letters and each with a
column total of exactly 8. -/
theorem Board.loadFEN_accepts_iff (board : Grid) (fen : String) :
    (Board.loadFEN board fen).ret = true ↔
      ((segments (boardField fen)).length = 8 ∧
        ∀ seg ∈ segments (boardField fen),
          (∀ ch ∈ seg, ch ∈ runDigits ∨ ch ∈ pieceLetters) ∧ colTotal seg = 8) := by
  rw [Board.loadFEN_ret_iff, ← boardPart_eq_boardField]
  have h := scan_accepts_iff (boardPart fen.toList) ScanState.init (Nat.zero_le 7)
  have h0 : RowsOk ScanState.init.row ScanState.init.col (boardPart fen.toList)
      ↔ RowsOk 0 0 (boardPart fen.toList) := Iff.rfl
  rw [h, h0, rowsOk_zero_iff]
  rfl

/-- C3 (content of a successful decode): when `loadFEN` returns true, row `r` of the board
is the expansion of the `r`-th '/'-separated segment of the board field, and the call
leaves the same result on any other prior board; "8/8/8/3p4/4P3/8/8/8" gives -1 at (3, 3),
+1 at (4, 4) and 0 elsewhere. -/
theorem Board.loadFEN_content :
    (∀ (board : Grid) (fen : String), (Board.loadFEN board fen).ret = true →
      (∀ r : Fin 8, (Board.loadFEN board fen).board.rowList r
          = expandSegment ((segments (boardField fen)).getD r.val [])) ∧
      (∀ other : Grid, Board.loadFEN other fen = Board.loadFEN board fen)) ∧
    (∀ board : Grid, Board.loadFEN board "8/8/8/3p4/4P3/8/8/8"
        = { ret := true, diag := none, board := twoPawnsGrid }) := by
  constructor
  · intro board fen h
    obtain ⟨st1, hscan, hr, hc⟩ := (Board.loadFEN_ret_iff board fen).1 h
    have hrows : RowsOk 0 0 (boardPart fen.toList) :=
      (scan_accepts_iff _ ScanState.init (Nat.zero_le 7)).1 ⟨st1, hscan, hr, hc⟩
    obtain ⟨hlen, hall⟩ := (rowsOk_zero_iff _).1 hrows
    obtain ⟨seg, segs, hseg⟩ := segments_ne_nil (boardPart fen.toList)
    have hcont := scan_content _ ScanState.init st1 seg segs (Nat.zero_le 7) hscan hseg
      (fun i j _ => by rw [ScanState.init_eq])
    have hcell : ∀ i j : Fin 8, st1.temp i j
        = (expandSegment ((segments (boardPart fen.toList)).getD i.val [])).getD j.val 0 := by
      intro i j
      have hA : ¬ (i.val < ScanState.init.row ∨
          (i.val = ScanState.init.row ∧ j.val < ScanState.init.col)) := by
        show ¬ (i.val < 0 ∨ (i.val = 0 ∧ j.val < 0))
        omega
      rw [hcont i j, if_neg hA, hseg]
      by_cases hi : i.val = ScanState.init.row
      · have hi0 : i.val = 0 := hi
        rw [if_pos hi, hi0, List.getD_cons_zero]
        rfl
      · have e : i.val = (i.val - ScanState.init.row - 1) + 1 := by
          have hi0 : i.val ≠ 0 := hi
          show i.val = (i.val - 0 - 1) + 1
          omega
        rw [if_neg hi]
        conv_rhs => rw [e, List.getD_cons_succ]
    rw [Board.loadFEN_of_scan board fen st1 hscan hr hc]
    refine ⟨?_, fun other => Board.loadFEN_of_scan other fen st1 hscan hr hc⟩
    intro r
    rw [← boardPart_eq_boardField]
    apply map_finRange_eq_of_getD
    · rw [expandSegment_length]
      have hr8 : r.val < (segments (boardPart fen.toList)).length := by rw [hlen]; exact r.isLt
      have hmem : (segments (boardPart fen.toList)).getD r.val []
          ∈ segments (boardPart fen.toList) := by
        rw [List.getD_eq_getElem _ _ hr8]
        exact List.getElem_mem hr8
      exact (hall _ hmem).2
    · intro j
      exact hcell r j
  · intro board
    rw [Board.loadFEN_of_counters board "8/8/8/3p4/4P3/8/8/8" rfl]
    have hgrid : scanTemp (boardPart "8/8/8/3p4/4P3/8/8/8".toList) = twoPawnsGrid :=
      Grid.ext_of_toLists (by decide!)
    rw [hgrid]

theorem Board.loadFEN_content_witness :
    (Board.loadFEN kingsGrid "8/8/8/3p4/4P3/8/8/8 w - - 0 1").ret = true ∧
    (Board.loadFEN kingsGrid "8/8/8/3p4/4P3/8/8/8 w - - 0 1").board.rowList 3
      = expandSegment
          ((segments (boardField "8/8/8/3p4/4P3/8/8/8 w - - 0 1")).getD (3 : Fin 8).val []) ∧
    expandSegment
        ((segments (boardField "8/8/8/3p4/4P3/8/8/8 w - - 0 1")).getD (3 : Fin 8).val [])
      = [0, 0, 0, -1, 0, 0, 0, 0] ∧
    Board.loadFEN twoPawnsGrid "8/8/8/3p4/4P3/8/8/8 w - - 0 1"
      = Board.loadFEN kingsGrid "8/8/8/3p4/4P3/8/8/8 w - - 0 1" :=
  ⟨rfl, (Board.loadFEN_content.1 kingsGrid "8/8/8/3p4/4P3/8/8/8 w - - 0 1" rfl).1 3, rfl,
    (Board.loadFEN_content.1 kingsGrid "8/8/8/3p4/4P3/8/8/8 w - - 0 1" rfl).2 twoPawnsGrid⟩

/-! ## Lemmas: coordinates and moves -/

theorem char_lt_iff (a b : Char) : a < b ↔ a.toNat < b.toNat := Iff.rfl

/-- The range test of `fileRankToRC` on the file selects exactly the letters `a..h`. -/
theorem file_test_iff (ch : Char) : ('a' ≤ ch ∧ ch ≤ 'h') ↔ ch ∈ fileLetters := by
  constructor
  · rintro ⟨h1, h2⟩
    rw [char_le_iff] at h1 h2
    have e1 : ('a' : Char).toNat = 97 := rfl
    have e2 : ('h' : Char).toNat = 104 := rfl
    rw [e1] at h1; rw [e2] at h2
    have hn : ch.toNat = 97 ∨ ch.toNat = 98 ∨ ch.toNat = 99 ∨ ch.toNat = 100 ∨
        ch.toNat = 101 ∨ ch.toNat = 102 ∨ ch.toNat = 103 ∨ ch.toNat = 104 := by omega
    rcases hn with h | h | h | h | h | h | h | h
    · have hc := @char_eq_of_toNat ch 'a' h; simp [hc, fileLetters]
    · have hc := @char_eq_of_toNat ch 'b' h; simp [hc, fileLetters]
    · have hc := @char_eq_of_toNat ch 'c' h; simp [hc, fileLetters]
    · have hc := @char_eq_of_toNat ch 'd' h; simp [hc, fileLetters]
    · have hc := @char_eq_of_toNat ch 'e' h; simp [hc, fileLetters]
    · have hc := @char_eq_of_toNat ch 'f' h; simp [hc, fileLetters]
    · have hc := @char_eq_of_toNat ch 'g' h; simp [hc, fileLetters]
    · have hc := @char_eq_of_toNat ch 'h' h; simp [hc, fileLetters]
  · intro h
    simp only [fileLetters, List.mem_cons, List.mem_singleton, List.not_mem_nil, or_false] at h
    rcases h with h | h | h | h | h | h | h | h <;> subst h <;> decide

theorem file_guard_iff (file : Char) : ¬ (file < 'a' ∨ file > 'h') ↔ ('a' ≤ file ∧ file ≤ 'h') := by
  show ¬ (file < 'a' ∨ 'h' < file) ↔ _
  rw [char_lt_iff, char_lt_iff, char_le_iff, char_le_iff]
  omega

theorem rank_guard_iff (rank : Char) : ¬ (rank < '1' ∨ rank > '8') ↔ ('1' ≤ rank ∧ rank ≤ '8') := by
  show ¬ (rank < '1' ∨ '8' < rank) ↔ _
  rw [char_lt_iff, char_lt_iff, char_le_iff, char_le_iff]
  omega

/-- The result of `fileRankToRC` on a valid pair of characters. -/
theorem fileRankToRC_of_valid (file rank : Char) (row col : Int)
    (hf : 'a' ≤ file ∧ file ≤ 'h') (hr : '1' ≤ rank ∧ rank ≤ '8') :
    fileRankToRC file rank row col =
      { ret := true, row := 8 - ((rank.toNat : Int) - ('0'.toNat : Int)),
        col := (file.toNat : Int) - ('a'.toNat : Int) } := by
  have h1 := (file_guard_iff file).2 hf
  have h2 := (rank_guard_iff rank).2 hr
  simp only [fileRankToRC, h1, h2, if_false]

/-- The result of `fileRankToRC` on anything else. -/
theorem fileRankToRC_of_invalid (file rank : Char) (row col : Int)
    (h : ¬ (('a' ≤ file ∧ file ≤ 'h') ∧ ('1' ≤ rank ∧ rank ≤ '8'))) :
    fileRankToRC file rank row col = { ret := false, row := row, col := col } := by
  unfold fileRankToRC
  by_cases h1 : file < 'a' ∨ file > 'h'
  · rw [if_pos h1]
  · rw [if_neg h1]
    by_cases h2 : rank < '1' ∨ rank > '8'
    · rw [if_pos h2]
    · exact absurd ⟨(file_guard_iff file).1 h1, (rank_guard_iff rank).1 h2⟩ h

theorem string_length_of_toList {s : String} {a b c d : Char} (h : s.toList = [a, b, c, d]) :
    s.length = 4 := by
  show s.data.length = 4
  rw [show s.data = [a, b, c, d] from h]
  rfl

theorem string_toList_of_length {s : String} (h : s.length = 4) :
    ∃ a b c d : Char, s.toList = [a, b, c, d] := by
  have hl : s.data.length = 4 := h
  show ∃ a b c d : Char, s.data = [a, b, c, d]
  match hd : s.data, hl with
  | [a, b, c, d], _ => exact ⟨a, b, c, d, rfl⟩

theorem parseSimpleMove_of_length_ne (s : String) (move : Move) (h : s.length ≠ 4) :
    parseSimpleMove s move = { ret := false, move := move } := by
  unfold parseSimpleMove
  rw [if_pos h]

/-- The body of `parseSimpleMove` on a string of four characters. -/
theorem parseSimpleMove_of_chars (s : String) (move : Move) (a b c d : Char)
    (h : s.toList = [a, b, c, d]) :
    parseSimpleMove s move =
      if (('a' ≤ a ∧ a ≤ 'h') ∧ ('1' ≤ b ∧ b ≤ '8')) ∧
          (('a' ≤ c ∧ c ≤ 'h') ∧ ('1' ≤ d ∧ d ≤ '8')) then
        { ret := true,
          move := Move.ofSquares (8 - ((b.toNat : Int) - ('0'.toNat : Int)))
            ((a.toNat : Int) - ('a'.toNat : Int)) (8 - ((d.toNat : Int) - ('0'.toNat : Int)))
            ((c.toNat : Int) - ('a'.toNat : Int)) }
      else { ret := false, move := move } := by
  have hl : ¬ s.length ≠ 4 := not_not.2 (string_length_of_toList h)
  have e0 : strAt s 0 = a := by unfold strAt; rw [h]; rfl
  have e1 : strAt s 1 = b := by unfold strAt; rw [h]; rfl
  have e2 : strAt s 2 = c := by unfold strAt; rw [h]; rfl
  have e3 : strAt s 3 = d := by unfold strAt; rw [h]; rfl
  unfold parseSimpleMove
  rw [if_neg hl]
  simp only [e0, e1, e2, e3]
  by_cases h1 : ('a' ≤ a ∧ a ≤ 'h') ∧ ('1' ≤ b ∧ b ≤ '8')
  · by_cases h2 : ('a' ≤ c ∧ c ≤ 'h') ∧ ('1' ≤ d ∧ d ≤ '8')
    · have hv : (('a' ≤ a ∧ a ≤ 'h') ∧ ('1' ≤ b ∧ b ≤ '8')) ∧
          (('a' ≤ c ∧ c ≤ 'h') ∧ ('1' ≤ d ∧ d ≤ '8')) := ⟨h1, h2⟩
      rw [if_pos hv, fileRankToRC_of_valid a b 0 0 h1.1 h1.2,
        fileRankToRC_of_valid c d 0 0 h2.1 h2.2]
      rfl
    · have hv : ¬ ((('a' ≤ a ∧ a ≤ 'h') ∧ ('1' ≤ b ∧ b ≤ '8')) ∧
          (('a' ≤ c ∧ c ≤ 'h') ∧ ('1' ≤ d ∧ d ≤ '8'))) := fun hh => h2 hh.2
      rw [if_neg hv, fileRankToRC_of_valid a b 0 0 h1.1 h1.2,
        fileRankToRC_of_invalid c d 0 0 h2]
      rfl
  · have hv : ¬ ((('a' ≤ a ∧ a ≤ 'h') ∧ ('1' ≤ b ∧ b ≤ '8')) ∧
        (('a' ≤ c ∧ c ≤ 'h') ∧ ('1' ≤ d ∧ d ≤ '8'))) := fun hh => h1 hh.1
    rw [if_neg hv, fileRankToRC_of_invalid a b 0 0 h1]
    rfl

/-! ## The claims, continued -/

/-- C11 (trailing fields are ignored): for a text `s` without a space, any text `t` and any
prior board, `loadFEN` on `s`, a space and `t` gives the same return value, the same
diagnostic and the same board as on `s` alone. -/
theorem Board.loadFEN_trailing (board : Grid) (s t : String) (hs : ' ' ∉ s.toList) :
    Board.loadFEN board (s ++ " " ++ t) = Board.loadFEN board s := by
  unfold Board.loadFEN
  rw [string_toList_append_space, boardPart_append_space _ _ hs, boardPart_of_not_mem _ hs]

theorem Board.loadFEN_trailing_witness :
    ' ' ∉ "8/8/8/3p4/4P3/8/8/8".toList ∧
    Board.loadFEN kingsGrid ("8/8/8/3p4/4P3/8/8/8" ++ " " ++ "w - - 0 1")
      = Board.loadFEN kingsGrid "8/8/8/3p4/4P3/8/8/8" ∧
    Board.loadFEN kingsGrid ("6k/8/8/8/8/8/8/8" ++ " " ++ "w - - 0 1")
      = Board.loadFEN kingsGrid "6k/8/8/8/8/8/8/8" :=
  ⟨by decide,
    Board.loadFEN_trailing kingsGrid "8/8/8/3p4/4P3/8/8/8" "w - - 0 1" (by decide),
    Board.loadFEN_trailing kingsGrid "6k/8/8/8/8/8/8/8" "w - - 0 1" (by decide)⟩

/-- C12 (`fileRankToRC`): the call returns true exactly when `file` is in `a..h` and `rank`
in `1..8`; then `col = file - 'a'` and `row = 8 - (rank - '0')`, both in `0..7`; when it
returns false `row` and `col` keep the values they had. -/
theorem fileRankToRC_spec (file rank : Char) (row col : Int) :
    ((fileRankToRC file rank row col).ret = true ↔
      (('a' ≤ file ∧ file ≤ 'h') ∧ ('1' ≤ rank ∧ rank ≤ '8'))) ∧
    ((fileRankToRC file rank row col).ret = true →
      (fileRankToRC file rank row col).col = (file.toNat : Int) - ('a'.toNat : Int) ∧
      (fileRankToRC file rank row col).row = 8 - ((rank.toNat : Int) - ('0'.toNat : Int)) ∧
      (0 ≤ (fileRankToRC file rank row col).row ∧ (fileRankToRC file rank row col).row ≤ 7) ∧
      (0 ≤ (fileRankToRC file rank row col).col ∧ (fileRankToRC file rank row col).col ≤ 7)) ∧
    ((fileRankToRC file rank row col).ret = false →
      (fileRankToRC file rank row col).row = row ∧
      (fileRankToRC file rank row col).col = col) := by
  by_cases h : ('a' ≤ file ∧ file ≤ 'h') ∧ ('1' ≤ rank ∧ rank ≤ '8')
  · rw [fileRankToRC_of_valid file rank row col h.1 h.2]
    obtain ⟨⟨h1, h2⟩, h3, h4⟩ := h
    rw [char_le_iff] at h1 h2 h3 h4
    have e1 : ('a' : Char).toNat = 97 := rfl
    have e2 : ('h' : Char).toNat = 104 := rfl
    have e3 : ('1' : Char).toNat = 49 := rfl
    have e4 : ('8' : Char).toNat = 56 := rfl
    have e5 : ('0' : Char).toNat = 48 := rfl
    rw [e1] at h1; rw [e2] at h2; rw [e3] at h3; rw [e4] at h4
    refine ⟨⟨fun _ => ⟨⟨?_, ?_⟩, ?_, ?_⟩, fun _ => rfl⟩,
      fun _ => ⟨rfl, rfl, ⟨?_, ?_⟩, ⟨?_, ?_⟩⟩, fun hfalse => Bool.noConfusion hfalse⟩
    · rw [char_le_iff, e1]; exact h1
    · rw [char_le_iff, e2]; exact h2
    · rw [char_le_iff, e3]; exact h3
    · rw [char_le_iff, e4]; exact h4
    · simp only [e5]; omega
    · simp only [e5]; omega
    · simp only [e1]; omega
    · simp only [e1]; omega
  · rw [fileRankToRC_of_invalid file rank row col h]
    exact ⟨⟨fun hret => Bool.noConfusion hret, fun hv => absurd hv h⟩,
      fun hret => Bool.noConfusion hret, fun _ => ⟨rfl, rfl⟩⟩

theorem fileRankToRC_spec_witness :
    fileRankToRC 'e' '4' 11 12 = { ret := true, row := 4, col := 4 } ∧
    ((fileRankToRC 'e' '4' 11 12).col = (('e' : Char).toNat : Int) - (('a' : Char).toNat : Int) ∧
      (fileRankToRC 'e' '4' 11 12).row
        = 8 - ((('4' : Char).toNat : Int) - (('0' : Char).toNat : Int)) ∧
      (0 ≤ (fileRankToRC 'e' '4' 11 12).row ∧ (fileRankToRC 'e' '4' 11 12).row ≤ 7) ∧
      (0 ≤ (fileRankToRC 'e' '4' 11 12).col ∧ (fileRankToRC 'e' '4' 11 12).col ≤ 7)) ∧
    (fileRankToRC 'i' '4' 11 12).ret = false ∧
    ((fileRankToRC 'i' '4' 11 12).row = 11 ∧ (fileRankToRC 'i' '4' 11 12).col = 12) ∧
    (fileRankToRC 'e' '9' 11 12).ret = false ∧
    ((fileRankToRC 'e' '9' 11 12).row = 11 ∧ (fileRankToRC 'e' '9' 11 12).col = 12) :=
  ⟨rfl, (fileRankToRC_spec 'e' '4' 11 12).2.1 rfl,
    rfl, (fileRankToRC_spec 'i' '4' 11 12).2.2 rfl,
    rfl, (fileRankToRC_spec 'e' '9' 11 12).2.2 rfl⟩

/-- C13 (`rcToSquare`): for `row` and `col` in `0..7` the result has two characters, the
first `'a' + col` and the second `'8' - row`, a name in `a1..h8` and never the marker;
for anything else the result is the marker "??". -/
theorem rcToSquare_spec (row col : Int) :
    (((0 ≤ row ∧ row ≤ 7) ∧ (0 ≤ col ∧ col ≤ 7)) →
      ∃ f r : Char, (rcToSquare row col).toList = [f, r] ∧
        (f.toNat : Int) = ('a'.toNat : Int) + col ∧
        (r.toNat : Int) = ('8'.toNat : Int) - row ∧
        f ∈ fileLetters ∧ r ∈ runDigits ∧ rcToSquare row col ≠ "??") ∧
    (¬ ((0 ≤ row ∧ row ≤ 7) ∧ (0 ≤ col ∧ col ≤ 7)) → rcToSquare row col = "??") := by
  constructor
  · rintro ⟨⟨h1, h2⟩, h3, h4⟩
    interval_cases row <;> interval_cases col <;>
      exact ⟨_, _, rfl, rfl, rfl, by decide, by decide, by decide⟩
  · intro h
    have hg : row < 0 ∨ row ≥ 8 ∨ col < 0 ∨ col ≥ 8 := by omega
    simp only [rcToSquare, hg, if_true]

theorem rcToSquare_spec_witness :
    rcToSquare 4 4 = "e4" ∧ rcToSquare 0 0 = "a8" ∧ rcToSquare 7 7 = "h1" ∧
    (∃ f r : Char, (rcToSquare 6 4).toList = [f, r] ∧
        (f.toNat : Int) = (('a' : Char).toNat : Int) + 4 ∧
        (r.toNat : Int) = (('8' : Char).toNat : Int) - 6 ∧
        f ∈ fileLetters ∧ r ∈ runDigits ∧ rcToSquare 6 4 ≠ "??") ∧
    rcToSquare 8 0 = "??" ∧ rcToSquare 0 (-1) = "??" :=
  ⟨rfl, rfl, rfl, (rcToSquare_spec 6 4).1 (by decide),
    (rcToSquare_spec 8 0).2 (by decide), (rcToSquare_spec 0 (-1)).2 (by decide)⟩

/-- C14 (square to name to square): for `row` and `col` in `0..7`, `rcToSquare` gives two
characters on which `fileRankToRC` returns true with exactly `row` and `col`, whatever its
reference arguments held. -/
theorem rcToSquare_roundtrip (row col r0 c0 : Int) (hrow : 0 ≤ row ∧ row ≤ 7)
    (hcol : 0 ≤ col ∧ col ≤ 7) :
    (rcToSquare row col).length = 2 ∧
    fileRankToRC (strAt (rcToSquare row col) 0) (strAt (rcToSquare row col) 1) r0 c0
      = { ret := true, row := row, col := col } := by
  obtain ⟨h1, h2⟩ := hrow
  obtain ⟨h3, h4⟩ := hcol
  interval_cases row <;> interval_cases col <;> exact ⟨rfl, rfl⟩

theorem rcToSquare_roundtrip_witness :
    rcToSquare 6 4 = "e2" ∧
    (rcToSquare 6 4).length = 2 ∧
    fileRankToRC (strAt (rcToSquare 6 4) 0) (strAt (rcToSquare 6 4) 1) 11 12
      = { ret := true, row := 6, col := 4 } :=
  ⟨rfl, rcToSquare_roundtrip 6 4 11 12 (by decide) (by decide)⟩

/-- C15 (name to square to name): for `file` in `a..h` and `rank` in `1..8`,
`fileRankToRC` returns true and `rcToSquare` on the `row` and `col` it gives is the string
made of `file` followed by `rank`. -/
theorem fileRankToRC_roundtrip (file rank : Char) (r0 c0 : Int)
    (hfile : 'a' ≤ file ∧ file ≤ 'h') (hrank : '1' ≤ rank ∧ rank ≤ '8') :
    (fileRankToRC file rank r0 c0).ret = true ∧
    rcToSquare (fileRankToRC file rank r0 c0).row (fileRankToRC file rank r0 c0).col
      = String.mk [file, rank] := by
  have hf := (file_test_iff file).1 hfile
  have hr := (digit_test_iff rank).1 hrank
  simp only [fileLetters, runDigits, List.mem_cons, List.mem_singleton, List.not_mem_nil,
    or_false] at hf hr
  rcases hf with h | h | h | h | h | h | h | h <;> subst h <;>
    rcases hr with h | h | h | h | h | h | h | h <;> subst h <;> exact ⟨rfl, rfl⟩

theorem fileRankToRC_roundtrip_witness :
    fileRankToRC 'e' '2' 11 12 = { ret := true, row := 6, col := 4 } ∧
    (fileRankToRC 'e' '2' 11 12).ret = true ∧
    rcToSquare (fileRankToRC 'e' '2' 11 12).row (fileRankToRC 'e' '2' 11 12).col
      = String.mk ['e', '2'] :=
  ⟨rfl, fileRankToRC_roundtrip 'e' '2' 11 12 (by decide) (by decide)⟩

/-- C16 (`charToPiece` is the table): the six uppercase letters give 1..6, the six lowercase
letters the negated values, every other character 0; so the result is non-zero exactly on
the twelve piece letters and always lies between -6 and 6. -/
theorem Board.charToPiece_table :
    (Board.charToPiece 'P' = 1 ∧ Board.charToPiece 'N' = 2 ∧ Board.charToPiece 'B' = 3 ∧
      Board.charToPiece 'R' = 4 ∧ Board.charToPiece 'Q' = 5 ∧ Board.charToPiece 'K' = 6) ∧
    (Board.charToPiece 'p' = -1 ∧ Board.charToPiece 'n' = -2 ∧ Board.charToPiece 'b' = -3 ∧
      Board.charToPiece 'r' = -4 ∧ Board.charToPiece 'q' = -5 ∧ Board.charToPiece 'k' = -6) ∧
    (∀ ch : Char, ch ∉ pieceLetters → Board.charToPiece ch = 0) ∧
    (∀ ch : Char, Board.charToPiece ch ≠ 0 ↔ ch ∈ pieceLetters) ∧
    (∀ ch : Char, -6 ≤ Board.charToPiece ch ∧ Board.charToPiece ch ≤ 6) := by
  refine ⟨by decide, by decide, fun ch h => (charToPiece_eq_zero_iff ch).2 h, fun ch => ?_,
    fun ch => ?_⟩
  · rw [Ne, charToPiece_eq_zero_iff, not_not]
  · by_cases h : ch ∈ pieceLetters
    · simp only [pieceLetters, List.mem_cons, List.mem_singleton, List.not_mem_nil,
        or_false] at h
      rcases h with h | h | h | h | h | h | h | h | h | h | h | h <;> subst h <;> decide
    · rw [(charToPiece_eq_zero_iff ch).2 h]
      decide

theorem Board.charToPiece_table_witness :
    'X' ∉ pieceLetters ∧ Board.charToPiece 'X' = 0 ∧ Board.charToPiece '1' = 0 ∧
    Board.charToPiece '/' = 0 ∧ Board.charToPiece ' ' = 0 :=
  ⟨by decide, Board.charToPiece_table.2.2.1 'X' (by decide),
    Board.charToPiece_table.2.2.1 '1' (by decide),
    Board.charToPiece_table.2.2.1 '/' (by decide),
    Board.charToPiece_table.2.2.1 ' ' (by decide)⟩

/-- C17 (codec round trip): for each of the twelve piece letters, decoding the symbol that
`print` shows for the decoded letter gives the decoded letter again; indeed the symbol is
the letter itself. -/
theorem Board.symbol_roundtrip (ch : Char) (h : ch ∈ pieceLetters) :
    Board.charToPiece (Board.symbol (Board.charToPiece ch)) = Board.charToPiece ch ∧
    Board.symbol (Board.charToPiece ch) = ch := by
  simp only [pieceLetters, List.mem_cons, List.mem_singleton, List.not_mem_nil,
    or_false] at h
  rcases h with h | h | h | h | h | h | h | h | h | h | h | h <;> subst h <;> decide

theorem Board.symbol_roundtrip_witness :
    Board.charToPiece 'q' = -5 ∧ Board.symbol (-5) = 'q' ∧ Board.symbol 0 = '.' ∧
    (Board.charToPiece (Board.symbol (Board.charToPiece 'q')) = Board.charToPiece 'q' ∧
      Board.symbol (Board.charToPiece 'q') = 'q') :=
  ⟨rfl, rfl, rfl, Board.symbol_roundtrip 'q' (by decide)⟩

/-- C18 (`parseSimpleMove` on a move string): for `f1`, `f2` in `a..h` and `r1`, `r2` in
`1..8` the call on the four characters `f1 r1 f2 r2` returns true and leaves the move with
`fromRow = 8 - (r1 - '0')`, `fromCol = f1 - 'a'`, `toRow = 8 - (r2 - '0')`,
`toCol = f2 - 'a'` and `promotion = EMPTY`. -/
theorem parseSimpleMove_valid (f1 r1 f2 r2 : Char) (move : Move)
    (hf1 : 'a' ≤ f1 ∧ f1 ≤ 'h') (hr1 : '1' ≤ r1 ∧ r1 ≤ '8')
    (hf2 : 'a' ≤ f2 ∧ f2 ≤ 'h') (hr2 : '1' ≤ r2 ∧ r2 ≤ '8') :
    parseSimpleMove (String.mk [f1, r1, f2, r2]) move =
      { ret := true,
        move := { fromRow := 8 - ((r1.toNat : Int) - ('0'.toNat : Int)),
                  fromCol := (f1.toNat : Int) - ('a'.toNat : Int),
                  toRow := 8 - ((r2.toNat : Int) - ('0'.toNat : Int)),
                  toCol := (f2.toNat : Int) - ('a'.toNat : Int),
                  promotion := EMPTY } } := by
  rw [parseSimpleMove_of_chars _ move f1 r1 f2 r2 rfl, if_pos ⟨⟨hf1, hr1⟩, hf2, hr2⟩]
  rfl

theorem parseSimpleMove_valid_witness :
    parseSimpleMove "e2e4" markerMove =
      { ret := true,
        move := { fromRow := 6, fromCol := 4, toRow := 4, toCol := 4, promotion := EMPTY } } :=
  parseSimpleMove_valid 'e' '2' 'e' '4' markerMove (by decide) (by decide) (by decide)
    (by decide)

/-- C19 (`parseSimpleMove` failures): the call returns false exactly when the string is not
four characters of the form `[a-h][1-8][a-h][1-8]`, in particular for every length other
than 4, and whenever it returns false the move argument keeps the value it had. -/
theorem parseSimpleMove_fail (s : String) (move : Move) :
    ((parseSimpleMove s move).ret = false ↔ ¬ IsMoveString s) ∧
    (s.length ≠ 4 → (parseSimpleMove s move).ret = false) ∧
    ((parseSimpleMove s move).ret = false → (parseSimpleMove s move).move = move) := by
  by_cases hl : s.length = 4
  · obtain ⟨a, b, c, d, h⟩ := string_toList_of_length hl
    rw [parseSimpleMove_of_chars s move a b c d h]
    by_cases hv : (('a' ≤ a ∧ a ≤ 'h') ∧ ('1' ≤ b ∧ b ≤ '8')) ∧
        (('a' ≤ c ∧ c ≤ 'h') ∧ ('1' ≤ d ∧ d ≤ '8'))
    · rw [if_pos hv]
      have hm : IsMoveString s :=
        ⟨a, b, c, d, h, (file_test_iff a).1 hv.1.1, (digit_test_iff b).1 hv.1.2,
          (file_test_iff c).1 hv.2.1, (digit_test_iff d).1 hv.2.2⟩
      exact ⟨⟨fun hret => Bool.noConfusion hret, fun hn => absurd hm hn⟩,
        fun hne => absurd hl hne, fun hret => Bool.noConfusion hret⟩
    · rw [if_neg hv]
      refine ⟨⟨fun _ => ?_, fun _ => rfl⟩, fun _ => rfl, fun _ => rfl⟩
      rintro ⟨f1, r1, f2, r2, h2, m1, m2, m3, m4⟩
      rw [h] at h2
      injection h2 with e1 h2
      injection h2 with e2 h2
      injection h2 with e3 h2
      injection h2 with e4 _
      subst e1 e2 e3 e4
      exact hv ⟨⟨(file_test_iff a).2 m1, (digit_test_iff b).2 m2⟩,
        (file_test_iff c).2 m3, (digit_test_iff d).2 m4⟩
  · rw [parseSimpleMove_of_length_ne s move hl]
    refine ⟨⟨fun _ => ?_, fun _ => rfl⟩, fun _ => rfl, fun _ => rfl⟩
    rintro ⟨f1, r1, f2, r2, h2, -⟩
    exact hl (string_length_of_toList h2)

theorem parseSimpleMove_fail_witness :
    parseSimpleMove "e2e" markerMove = { ret := false, move := markerMove } ∧
    parseSimpleMove "e2e4q" markerMove = { ret := false, move := markerMove } ∧
    (fileRankToRC 'e' '2' 0 0).ret = true ∧ (fileRankToRC 'e' '9' 0 0).ret = false ∧
    (parseSimpleMove "e2e9" markerMove).ret = false ∧
    (parseSimpleMove "e2e9" markerMove).move = markerMove ∧
    (parseSimpleMove "e2" markerMove).ret = false :=
  ⟨rfl, rfl, rfl, rfl, rfl, (parseSimpleMove_fail "e2e9" markerMove).2.2 rfl,
    (parseSimpleMove_fail "e2" markerMove).2.1 (by decide)⟩

/-- C20 (`initStartPosition`): from any prior grid the call leaves row 0 =
-4 -2 -3 -5 -6 -3 -2 -4, row 1 all -1, rows 2..5 all 0, row 6 all +1 and row 7 =
4 2 3 5 6 3 2 4; the result is the same from any other grid, so a second call changes
nothing, and a newly constructed `Board` holds this grid. -/
theorem Board.initStartPosition_spec (prior other uninit : Grid) :
    (Board.initStartPosition prior).toLists =
      [[-4, -2, -3, -5, -6, -3, -2, -4], [-1, -1, -1, -1, -1, -1, -1, -1],
       [0, 0, 0, 0, 0, 0, 0, 0], [0, 0, 0, 0, 0, 0, 0, 0],
       [0, 0, 0, 0, 0, 0, 0, 0], [0, 0, 0, 0, 0, 0, 0, 0],
       [1, 1, 1, 1, 1, 1, 1, 1], [4, 2, 3, 5, 6, 3, 2, 4]] ∧
    Board.initStartPosition other = Board.initStartPosition prior ∧
    Board.initStartPosition (Board.initStartPosition prior) = Board.initStartPosition prior ∧
    Board.new uninit = Board.initStartPosition prior := by
  refine ⟨Board.initStartPosition_toLists prior, ?_, ?_, ?_⟩
  · exact Grid.ext_of_toLists
      ((Board.initStartPosition_toLists other).trans (Board.initStartPosition_toLists prior).symm)
  · exact Grid.ext_of_toLists
      ((Board.initStartPosition_toLists _).trans (Board.initStartPosition_toLists prior).symm)
  · exact Grid.ext_of_toLists
      ((Board.initStartPosition_toLists _).trans (Board.initStartPosition_toLists prior).symm)

/-! ## Lemmas: piece codes in range -/

theorem charToPiece_bounds (ch : Char) :
    -6 ≤ Board.charToPiece ch ∧ Board.charToPiece ch ≤ 6 := by
  by_cases h : ch ∈ pieceLetters
  · simp only [pieceLetters, List.mem_cons, List.mem_singleton, List.not_mem_nil,
      or_false] at h
    rcases h with h | h | h | h | h | h | h | h | h | h | h | h <;> subst h <;> decide
  · rw [(charToPiece_eq_zero_iff ch).2 h]
    decide

theorem Grid.set_inRange {g : Grid} (r c : Fin 8) {v : Int} (hg : g.InRange)
    (hv : -6 ≤ v ∧ v ≤ 6) : (g.set r c v).InRange := by
  intro i j
  unfold Grid.set
  by_cases h : i = r ∧ j = c
  · rw [if_pos h]; exact hv
  · rw [if_neg h]; exact hg i j

theorem Grid.inRange_of_toLists {g : Grid}
    (h : ∀ row ∈ g.toLists, ∀ v ∈ row, -6 ≤ v ∧ v ≤ 6) : g.InRange := by
  intro i j
  apply h ((List.finRange 8).map fun c => g i c)
  · exact List.mem_map.2 ⟨i, List.mem_finRange i, rfl⟩
  · exact List.mem_map.2 ⟨j, List.mem_finRange j, rfl⟩

theorem Board.clear_inRange (g : Grid) : (Board.clear g).InRange := by
  rw [Board.clear_eq]
  intro i j
  show (-6 : Int) ≤ 0 ∧ (0 : Int) ≤ 6
  decide

theorem Board.initStartPosition_inRange (g : Grid) : (Board.initStartPosition g).InRange := by
  apply Grid.inRange_of_toLists
  rw [Board.initStartPosition_toLists]
  decide

/-- The three ways an iteration can succeed. -/
theorem scanStep_ok_cases {st st1 : ScanState} {ch : Char} (h : scanStep st ch = .ok st1) :
    (ch = '/' ∧ st.col = 8 ∧ st.row + 1 < 8 ∧
      st1 = { row := st.row + 1, col := 0, temp := st.temp }) ∨
    (ch ∈ runDigits ∧ st.col + (ch.toNat - '0'.toNat) ≤ 8 ∧
      st1 = { row := st.row, col := st.col + (ch.toNat - '0'.toNat), temp := st.temp }) ∨
    (ch ∈ pieceLetters ∧ st.col < 8 ∧ ∃ temp,
      st.temp.write st.row st.col (Board.charToPiece ch) = some temp ∧
      st1 = { row := st.row, col := st.col + 1, temp := temp }) := by
  by_cases hs : ch = '/'
  · subst hs
    rw [scanStep_slash] at h
    by_cases hc : st.col ≠ 8
    · rw [if_pos hc] at h; cases h
    · rw [if_neg hc] at h
      by_cases hr : st.row + 1 ≥ 8
      · rw [if_pos hr] at h; cases h
      · rw [if_neg hr] at h
        injection h with h
        exact Or.inl ⟨rfl, by omega, by omega, h.symm⟩
  · by_cases hd : ch ∈ runDigits
    · rw [scanStep_digit st hd] at h
      by_cases hgt : st.col + (ch.toNat - '0'.toNat) > 8
      · rw [if_pos hgt] at h; cases h
      · rw [if_neg hgt] at h
        injection h with h
        exact Or.inr (Or.inl ⟨hd, by omega, h.symm⟩)
    · by_cases hl : ch ∈ pieceLetters
      · rw [scanStep_letter st hl] at h
        by_cases hge : st.col ≥ 8
        · rw [if_pos hge] at h; cases h
        · rw [if_neg hge] at h
          cases hw : st.temp.write st.row st.col (Board.charToPiece ch) with
          | none => rw [hw] at h; cases h
          | some temp =>
            rw [hw] at h
            injection h with h
            exact Or.inr (Or.inr ⟨hl, by omega, temp, rfl, h.symm⟩)
      · rw [scanStep_unknown st hs hd hl] at h
        cases h

theorem scanStep_inRange {st st1 : ScanState} {ch : Char} (hg : st.temp.InRange)
    (h : scanStep st ch = .ok st1) : st1.temp.InRange := by
  rcases scanStep_ok_cases h with ⟨-, -, -, h1⟩ | ⟨-, -, h1⟩ | ⟨-, -, temp, hw, h1⟩
  · subst h1; exact hg
  · subst h1; exact hg
  · subst h1
    unfold Grid.write at hw
    split_ifs at hw with hb
    injection hw with hw
    subst hw
    exact Grid.set_inRange _ _ hg (charToPiece_bounds ch)

theorem scan_inRange {st st1 : ScanState} {text : List Char} (hg : st.temp.InRange)
    (h : scan st text = .ok st1) : st1.temp.InRange := by
  induction text generalizing st with
  | nil => simp only [scan] at h; injection h with h; subst h; exact hg
  | cons ch rest ih =>
    simp only [scan] at h
    cases hs : scanStep st ch with
    | error e => rw [hs] at h; cases h
    | ok st2 =>
      rw [hs] at h
      exact ih (scanStep_inRange hg hs) h

theorem Board.loadFEN_inRange {board : Grid} (fen : String) (hg : board.InRange) :
    (Board.loadFEN board fen).board.InRange := by
  rw [Board.loadFEN_eq]
  cases hs : scan ScanState.init (boardPart fen.toList) with
  | error e => exact hg
  | ok st =>
    by_cases hc : st.row = 7 ∧ st.col = 8
    · simp only [hc, and_self, if_true]
      refine scan_inRange ?_ hs
      rw [ScanState.init_eq]
      intro i j
      show (-6 : Int) ≤ 0 ∧ (0 : Int) ≤ 6
      decide
    · simp only [hc, if_false]
      exact hg

theorem runOps_inRange (ops : List BoardOp) : ∀ board : Grid, board.InRange →
    (runOps board ops).InRange := by
  induction ops with
  | nil => intro board hg; exact hg
  | cons op rest ih =>
    intro board hg
    show (runOps (BoardOp.apply board op) rest).InRange
    apply ih
    cases op with
    | clear => exact Board.clear_inRange board
    | initStartPosition => exact Board.initStartPosition_inRange board
    | loadFEN fen => exact Board.loadFEN_inRange fen hg

/-! ## Lemmas: the counters stay in range -/

theorem scanStep_bounds {st st1 : ScanState} {ch : Char} (hr : st.row ≤ 7) (hc : st.col ≤ 8)
    (h : scanStep st ch = .ok st1) : st1.row ≤ 7 ∧ st1.col ≤ 8 := by
  rcases scanStep_ok_cases h with ⟨-, -, h0, h1⟩ | ⟨-, h0, h1⟩ | ⟨-, h0, temp, -, h1⟩
  · subst h1; simp only; omega
  · subst h1; simp only; omega
  · subst h1; simp only; omega

theorem scan_bounds {st st1 : ScanState} {text : List Char} (hr : st.row ≤ 7) (hc : st.col ≤ 8)
    (h : scan st text = .ok st1) : st1.row ≤ 7 ∧ st1.col ≤ 8 := by
  induction text generalizing st with
  | nil => simp only [scan] at h; injection h with h; subst h; exact ⟨hr, hc⟩
  | cons ch rest ih =>
    simp only [scan] at h
    cases hs : scanStep st ch with
    | error e => rw [hs] at h; cases h
    | ok st2 =>
      rw [hs] at h
      obtain ⟨h1, h2⟩ := scanStep_bounds hr hc hs
      exact ih h1 h2 h

theorem scanStep_no_oob (st : ScanState) (ch : Char) (hr : st.row ≤ 7) :
    scanStep st ch ≠ .error .indexOutOfRange := by
  intro h
  by_cases hs : ch = '/'
  · subst hs
    rw [scanStep_slash] at h
    split_ifs at h <;> injection h with h <;> cases h
  · by_cases hd : ch ∈ runDigits
    · rw [scanStep_digit st hd] at h
      split_ifs at h
      injection h with h
      cases h
    · by_cases hl : ch ∈ pieceLetters
      · rw [scanStep_letter st hl] at h
        by_cases hge : st.col ≥ 8
        · rw [if_pos hge] at h; cases h
        · rw [if_neg hge, Grid.write_of_lt st.temp (Board.charToPiece ch)
            (by omega : st.row < 8) (by omega : st.col < 8)] at h
          cases h
      · rw [scanStep_unknown st hs hd hl] at h
        cases h

theorem scan_no_oob {st : ScanState} (text : List Char) (hr : st.row ≤ 7) (hc : st.col ≤ 8) :
    scan st text ≠ .error .indexOutOfRange := by
  induction text generalizing st with
  | nil => intro h; cases h
  | cons ch rest ih =>
    intro h
    simp only [scan] at h
    cases hs : scanStep st ch with
    | error e =>
      rw [hs] at h
      injection h with h
      subst h
      exact scanStep_no_oob st ch hr hs
    | ok st2 =>
      rw [hs] at h
      obtain ⟨h1, h2⟩ := scanStep_bounds hr hc hs
      exact ih h1 h2 h

theorem boardPart_append_of_not_mem (p s : List Char) (h : ' ' ∉ p) :
    boardPart (p ++ s) = p ++ boardPart s := by
  rw [boardPart_eq_takeWhile, boardPart_eq_takeWhile]
  induction p with
  | nil => rfl
  | cons x xs ih =>
    have hx : x ≠ ' ' := fun e => h (by simp [e])
    have hxs : ' ' ∉ xs := fun e => h (by simp [e])
    have hne : (x != ' ') = true := by simpa using hx
    rw [List.cons_append, List.takeWhile_cons, hne, if_pos rfl, ih hxs]
    rfl

theorem string_toList_append (p s : String) : (p ++ s).toList = p.toList ++ s.toList := by
  simp [String.toList]

/-! ## Lemmas: the copies -/

theorem v2_scan_eq (text : List Char) : ∀ st : ScanState, V2.scan st text = scan st text := by
  induction text with
  | nil => intro st; rfl
  | cons ch rest ih =>
    intro st
    show (match scanStep st ch with
      | .error e => (.error e : Except FenError ScanState)
      | .ok st1 => V2.scan st1 rest) = scan st (ch :: rest)
    cases hs : scanStep st ch with
    | error e => simp only [scan, hs]
    | ok st1 => simp only [scan, hs]; exact ih st1

/-! ## The claims, concluded -/

/-- C21 (piece code invariant): in the grid of a newly constructed `Board`, and after any
finite sequence of `clear`, `initStartPosition` and `loadFEN` calls on it, with any
strings, accepted or not, each of the 64 cells holds an integer between -6 and 6. -/
theorem Board.cells_in_range (uninit : Grid) (ops : List BoardOp) (i j : Fin 8) :
    -6 ≤ runOps (Board.new uninit) ops i j ∧ runOps (Board.new uninit) ops i j ≤ 6 :=
  runOps_inRange ops (Board.new uninit) (Board.initStartPosition_inRange _) i j

/-- C22 (the copies agree): `loadFEN`, `charToPiece`, `fileRankToRC`, `rcToSquare` and
`parseSimpleMove` of `main_v2.cpp` give the same result and leave the same state as those
of `main.cpp` on every input, and `initStartPosition` gives the same grid in `main.cpp`,
`main_v1.cpp` and `main_v2.cpp`. -/
theorem copies_agree :
    (∀ (board : Grid) (fen : String), V2.Board.loadFEN board fen = Board.loadFEN board fen) ∧
    (∀ ch : Char, V2.Board.charToPiece ch = Board.charToPiece ch) ∧
    (∀ (file rank : Char) (row col : Int),
      V2.fileRankToRC file rank row col = fileRankToRC file rank row col) ∧
    (∀ row col : Int, V2.rcToSquare row col = rcToSquare row col) ∧
    (∀ (s : String) (move : Move), V2.parseSimpleMove s move = parseSimpleMove s move) ∧
    (∀ board : Grid, V2.Board.initStartPosition board = Board.initStartPosition board) ∧
    (∀ board : Grid, V1.Board.initStartPosition board = Board.initStartPosition board) := by
  refine ⟨fun board fen => ?_, fun _ => rfl, fun _ _ _ _ => rfl, fun _ _ => rfl,
    fun _ _ => rfl, fun _ => rfl, fun _ => rfl⟩
  unfold V2.Board.loadFEN Board.loadFEN
  rw [v2_scan_eq]

/-- C23 (index safety of the staging grid): the loop keeps `row <= 7` and `col <= 8`; when
an iteration reaches the write `temp[row][col]` (a character that is neither '/' nor a
digit `1..8`, decodes to a piece, and `col < 8`), `row` and `col` are at most 7 and the
checked write succeeds; so neither the loop nor `loadFEN` ever ends on the out-of-range
outcome. -/
theorem Board.loadFEN_index_safe :
    (∀ (text : List Char) (st : ScanState), scan ScanState.init text = .ok st →
      st.row ≤ 7 ∧ st.col ≤ 8) ∧
    (∀ (text : List Char) (st : ScanState) (ch : Char), scan ScanState.init text = .ok st →
      ch ≠ '/' → ¬ ('1' ≤ ch ∧ ch ≤ '8') → Board.charToPiece ch ≠ EMPTY → ¬ st.col ≥ 8 →
      st.row ≤ 7 ∧ st.col ≤ 7 ∧
        (st.temp.write st.row st.col (Board.charToPiece ch)).isSome = true) ∧
    (∀ text : List Char, scan ScanState.init text ≠ .error .indexOutOfRange) ∧
    (∀ (board : Grid) (fen : String),
      (Board.loadFEN board fen).diag ≠ some .indexOutOfRange) := by
  have hinit : ScanState.init.row ≤ 7 ∧ ScanState.init.col ≤ 8 := ⟨by decide, by decide⟩
  refine ⟨fun text st h => scan_bounds hinit.1 hinit.2 h, ?_,
    fun text => scan_no_oob text hinit.1 hinit.2, ?_⟩
  · intro text st ch h _ _ _ hcol
    obtain ⟨hr, -⟩ := scan_bounds hinit.1 hinit.2 h
    have hr8 : st.row < 8 := by omega
    have hc8 : st.col < 8 := by omega
    refine ⟨hr, by omega, ?_⟩
    rw [Grid.write_of_lt st.temp (Board.charToPiece ch) hr8 hc8]
    rfl
  · intro board fen hd
    rw [Board.loadFEN_eq] at hd
    cases hs : scan ScanState.init (boardPart fen.toList) with
    | error e =>
      rw [hs] at hd
      injection hd with hd
      subst hd
      exact scan_no_oob _ hinit.1 hinit.2 hs
    | ok st =>
      rw [hs] at hd
      by_cases hc : st.row = 7 ∧ st.col = 8
      · simp [hc] at hd
      · simp [hc] at hd

theorem Board.loadFEN_index_safe_witness :
    scan ScanState.init [] = .ok ScanState.init ∧
    (ScanState.init.row ≤ 7 ∧ ScanState.init.col ≤ 7 ∧
      (ScanState.init.temp.write ScanState.init.row ScanState.init.col
        (Board.charToPiece 'k')).isSome = true) ∧
    (ScanState.init.row ≤ 7 ∧ ScanState.init.col ≤ 8) ∧
    scanCounters "rnbqkbnr/pppppppp/8/8/8/8/PPPPPPPP/RNBQKBNR".toList = .ok (7, 8) :=
  ⟨rfl, Board.loadFEN_index_safe.2.1 [] ScanState.init 'k' rfl (by decide) (by decide)
      (by decide) (by decide),
    Board.loadFEN_index_safe.1 [] ScanState.init rfl, rfl⟩

/-- C24 (first error wins): when `loadFEN` rejects a text `p` without a space with one of
the four diagnostics of the loop (row length, too many rows, row overflow, unknown
character), it rejects `p` followed by any text `s` with the same diagnostic, from any
board and leaving that board unchanged. -/
theorem Board.loadFEN_first_error (board other : Grid) (p s : String) (e : FenError)
    (hp : ' ' ∉ p.toList)
    (he : e = .rowLengthMismatch ∨ e = .tooManyRows ∨ e = .rowOverflow ∨
      e = .unknownPieceChar)
    (hrej : (Board.loadFEN board p).diag = some e) :
    Board.loadFEN other (p ++ s) = { ret := false, diag := some e, board := other } := by
  rw [Board.loadFEN_eq, boardPart_of_not_mem _ hp] at hrej
  rw [Board.loadFEN_eq, string_toList_append, boardPart_append_of_not_mem _ _ hp, scan_append]
  cases hs : scan ScanState.init p.toList with
  | error e1 =>
    rw [hs] at hrej
    injection hrej with hrej
    subst hrej
    rfl
  | ok st =>
    rw [hs] at hrej
    exfalso
    by_cases hc : st.row = 7 ∧ st.col = 8
    · simp [hc] at hrej
    · simp only [hc, if_false] at hrej
      injection hrej with hrej
      subst hrej
      rcases he with h | h | h | h <;> cases h

theorem Board.loadFEN_first_error_witness :
    (Board.loadFEN kingsGrid "6k/").diag = some .rowLengthMismatch ∧
    Board.loadFEN twoPawnsGrid ("6k/" ++ "1/8/8/8/8/8/8 w - - 0 1")
      = { ret := false, diag := some .rowLengthMismatch, board := twoPawnsGrid } ∧
    (Board.loadFEN kingsGrid "8/8/8/8/8/8/8/8/").diag = some .tooManyRows ∧
    Board.loadFEN twoPawnsGrid ("8/8/8/8/8/8/8/8/" ++ "X")
      = { ret := false, diag := some .tooManyRows, board := twoPawnsGrid } :=
  ⟨rfl,
    Board.loadFEN_first_error kingsGrid twoPawnsGrid "6k/" "1/8/8/8/8/8/8 w - - 0 1"
      .rowLengthMismatch (by decide) (Or.inl rfl) rfl,
    rfl,
    Board.loadFEN_first_error kingsGrid twoPawnsGrid "8/8/8/8/8/8/8/8/" "X"
      .tooManyRows (by decide) (Or.inr (Or.inl rfl)) rfl⟩

end ChessAI
